import Mathlib

/-!
# etcdenv: the coordination engine of `etcdenv/context.go`

A shallow embedding of `context.go` and the properties of its namespace
resolver, its fetchers, its restart decision, its constructor and the
reactions of the central loop of `Run`.

Modelling conventions.

* A Go `string` is a sequence of bytes: `GoString := List UInt8`. The functions
  `strings.HasPrefix` and `strings.TrimPrefix` follow the Go standard library
  definitions, which work on bytes.
* A Go `map[string]string` is an association list with first-match lookup. The
  program only ever adds a key that is absent, so the lists it builds have
  pairwise distinct keys. The order in which `range` visits a map is not fixed
  by the language: it is a parameter of the environment (`Env.rangeOrder`).
* The key-value store is an oracle `Env.store`: the answer to the `i`-th `Get`
  call of the run, as a function of the namespace asked for. The program is
  sequential on the fetch path, so every store, however it chooses its answers,
  induces such an oracle.
* Effects on the outside world (store calls, backoff, log lines, calls to the
  process supervisor, channel sends, `os.Exit`, spawned goroutines) are
  recorded, in program order, in `World.trace`.
* A Go `panic` is the `Except.error` result.
-/

namespace Etcdenv

/-! ## Strings -/

/-- A Go string: an immutable sequence of bytes. -/
abbrev GoString := List UInt8

/-- The bytes of an ASCII string literal of the Go source. -/
def lit (s : String) : GoString := s.toList.map (fun c => UInt8.ofNat c.toNat)

/-- Go `strings.HasPrefix`:
`len(s) >= len(prefix) && s[0:len(prefix)] == prefix`. -/
def HasPrefix (s pre : GoString) : Bool :=
  decide (pre.length ≤ s.length) && (s.take pre.length == pre)

/-- Go `strings.TrimPrefix`:
`if HasPrefix(s, prefix) { return s[len(prefix):] }; return s`. -/
def TrimPrefix (s pre : GoString) : GoString :=
  if HasPrefix s pre then s.drop pre.length else s

/-! ## Maps -/

/-- A Go `map[string]string`, as an association list. -/
abbrev GoMap := List (GoString × GoString)

/-- The Go lookup `v, ok := m[k]`. -/
def GoMap.find (m : GoMap) (k : GoString) : Option GoString := m.lookup k

/-- The Go idiom `if _, ok := m[k]; !ok { m[k] = v }`. -/
def GoMap.insertIfAbsent (m : GoMap) (k v : GoString) : GoMap :=
  match GoMap.find m k with
  | some _ => m
  | none => m ++ [(k, v)]

/-- The keys of a map. -/
def GoMap.keys (m : GoMap) : List GoString := m.map Prod.fst

/-! ## The store, the supervisor and the recorded effects -/

/-- One child node of a store response (`response.Node.Nodes[i]`). -/
structure Node where
  Key : GoString
  Value : GoString
deriving DecidableEq, Repr

/-- The answer of `etcdClient.Get(namespace, false, false)`: a response with
its child nodes, an error of the recognized type `*etcd.EtcdError` with its
`ErrorCode`, or an error of any other type with its message. -/
inductive GetResult where
  | ok (nodes : List Node)
  | etcdError (errorCode : Int)
  | otherError (msg : String)
deriving DecidableEq, Repr

/-- The lines written with `log.Println` and `log.Printf` by the fetch path
and by the central loop. -/
inductive LogLine where
  /-- `log.Println(err.Error())` -/
  | errorText
  /-- "Can't join the etcd server, fallback to the env variables" -/
  | cantJoin
  /-- "The namespace does not exist, fallback to the env variables" -/
  | namespaceMissing
  /-- "retry fetching variables" -/
  | retryFetching
  /-- "Process restarted" -/
  | processRestarted
  /-- "Process exited with the status %d" -/
  | processExited (status : Int)
deriving DecidableEq, Repr

/-- The effects of the program on the outside world. -/
inductive Action where
  /-- `ctx.etcdClient.Get(namespace, false, false)` and the answer it got -/
  | get (ns : GoString) (resp : GetResult)
  /-- `b.Reset()` -/
  | backoffReset
  /-- `t := b.NextBackOff(); time.Sleep(t)` -/
  | backoffSleep
  /-- a log line -/
  | log (line : LogLine)
  /-- `ctx.Runner.Start(env)` -/
  | start (env : GoMap)
  /-- `ctx.Runner.Restart(env)` -/
  | restart (env : GoMap)
  /-- `ctx.Runner.Stop()` -/
  | stop
  /-- `go ctx.Runner.WatchProcess(processExitChan)` -/
  | watchProcess
  /-- `ctx.ExitChan <- true` -/
  | sendExitChan
  /-- `os.Exit(status)` -/
  | osExit (status : Int)
deriving DecidableEq, Repr

/-- What the program does not control.

* `store i ns`: the answer of the store to the `i`-th `Get` call of the run,
  when that call asks for `ns`.
* `rangeOrder i m`: the order in which a `range` over the map `m` visits its
  entries, for the `range` that follows the `i`-th `Get` call.
* `ErrCodeEtcdNotReachable`, `ErrKeyNotFound`: the two error code constants the
  fetch path compares against; they are declared outside `context.go`.
* `exitChanReceiver`: whether another goroutine receives the value sent on the
  unbuffered channel `ExitChan`. -/
structure Env where
  store : Nat → GoString → GetResult
  rangeOrder : Nat → GoMap → GoMap
  ErrCodeEtcdNotReachable : Int
  ErrKeyNotFound : Int
  exitChanReceiver : Bool

/-- The number of `Get` calls issued so far and the effects so far. -/
structure World where
  calls : Nat
  trace : List Action
deriving DecidableEq, Repr

/-- Record one effect. -/
def World.emit (w : World) (a : Action) : World :=
  { w with trace := w.trace ++ [a] }

/-- Modelled from the spec: the type `Runner` and its constructor `NewRunner`
are not in `context.go`. The process supervisor is an external collaborator
with `Start(env)`, `Restart(env)`, `Stop()` and an exit notification; a
supervisor is represented by the command it was built for, and its calls by
the actions `start`, `restart`, `stop` and `watchProcess`. -/
structure Runner where
  command : List GoString
deriving DecidableEq, Repr

/-- The store client `etcd.NewClient(endpoints)`, represented by its endpoints. -/
structure EtcdClient where
  endpoints : List GoString
deriving DecidableEq, Repr

/-- The struct `Context`. The channel `ExitChan` holds no data of its own: the
sends on it are actions, the receipts from it are events of the central loop. -/
structure Context where
  Namespaces : List GoString
  Runner : Runner
  ShutdownBehavour : GoString
  WatchedKeys : List GoString
  CurrentEnv : GoMap
  maxRetry : Int
  etcdClient : EtcdClient
deriving DecidableEq, Repr

/-! ## `NewContext` -/

/-- The function `NewContext`. -/
def NewContext (namespaces endpoints command : List GoString)
    (shutdownBehavour : GoString) (watchedKeys : List GoString) : Except String Context :=
  if shutdownBehavour ≠ lit "keepalive" ∧ shutdownBehavour ≠ lit "restart" ∧
      shutdownBehavour ≠ lit "exit" then
    Except.error "Choose a correct variable for the shutdown behavour"
  else
    Except.ok
      { Namespaces := namespaces
        Runner := { command := command }
        etcdClient := { endpoints := endpoints }
        ShutdownBehavour := shutdownBehavour
        WatchedKeys := watchedKeys
        CurrentEnv := []
        maxRetry := 3 }

/-! ## `escapeNamespace` -/

/-- The loop of `escapeNamespace` over `ctx.Namespaces`: the first namespace
that is a prefix of `key` is trimmed and the loop is left (`break`). -/
def escapeNamespaceLoop : List GoString → GoString → GoString
  | [], key => key
  | ns :: rest, key =>
    if HasPrefix key ns then TrimPrefix key ns else escapeNamespaceLoop rest key

/-- The method `Context.escapeNamespace`. -/
def escapeNamespace (ctx : Context) (key : GoString) : GoString :=
  TrimPrefix (escapeNamespaceLoop ctx.Namespaces key) (lit "/")

/-- The reference of the key resolver, in the words of the specification: let
`n` be the first element of `ns`, in list order, that is a prefix of `k`; let
`r` be `k` with that prefix removed (`r = k` when there is none); the result
is `r` without its leading separator when it has one, and `r` otherwise. -/
def escapeNamespaceRef (ns : List GoString) (k : GoString) : GoString :=
  let r :=
    match ns.find? (fun n => n.isPrefixOf k) with
    | some n => k.drop n.length
    | none => k
  match r with
  | c :: rest => if c = 47 then rest else r
  | [] => r

/-! ## The fetchers -/

/-- The loop of `fetchEtcdNamespaceVariables` over `response.Node.Nodes`. -/
def nodesLoop (ctx : Context) : List Node → GoMap → GoMap
  | [], result => result
  | node :: rest, result =>
    nodesLoop ctx rest (GoMap.insertIfAbsent result (escapeNamespace ctx node.Key) node.Value)

/-- The log lines of the two error code comparisons (lines 71 to 75). -/
def logErrorCode (env : Env) (errorCode : Int) (w : World) : World :=
  if errorCode = env.ErrCodeEtcdNotReachable then w.emit (Action.log LogLine.cantJoin)
  else if errorCode = env.ErrKeyNotFound then w.emit (Action.log LogLine.namespaceMissing)
  else w

/-- The method `Context.fetchEtcdNamespaceVariables`. The Go `int` arguments
are integers: `currentRetry + 1` is only computed below `ctx.maxRetry`, so it
does not overflow. -/
def fetchEtcdNamespaceVariables (env : Env) (ctx : Context) (ns : GoString)
    (currentRetry : Int) (w : World) : Except String GoMap × World :=
  let resp := env.store w.calls ns
  let w1 : World := { calls := w.calls + 1, trace := w.trace ++ [Action.get ns resp] }
  match resp with
  | GetResult.ok nodes => (Except.ok (nodesLoop ctx nodes []), w1)
  | GetResult.otherError msg => (Except.error msg, w1.emit (Action.log LogLine.errorText))
  | GetResult.etcdError errorCode =>
    let w2 := logErrorCode env errorCode (w1.emit (Action.log LogLine.errorText))
    if h : currentRetry < ctx.maxRetry then
      fetchEtcdNamespaceVariables env ctx ns (currentRetry + 1)
        ((w2.emit (Action.log LogLine.retryFetching)).emit Action.backoffSleep)
    else
      (Except.ok [], w2)
termination_by (ctx.maxRetry - currentRetry).toNat
decreasing_by omega

/-- The inner loop of `fetchEtcdVariables`: `range` over the mapping of one
namespace, adding the keys that `result` does not have yet. -/
def mergeInto (result : GoMap) (entries : GoMap) : GoMap :=
  entries.foldl (fun r kv => GoMap.insertIfAbsent r kv.1 kv.2) result

/-- The outer loop of `fetchEtcdVariables` over the namespaces still to fetch. -/
def fetchLoop (env : Env) (ctx : Context) :
    List GoString → GoMap → World → Except String GoMap × World
  | [], result, w => (Except.ok result, w)
  | ns :: rest, result, w =>
    match fetchEtcdNamespaceVariables env ctx ns 0 (w.emit Action.backoffReset) with
    | (Except.error msg, w1) => (Except.error msg, w1)
    | (Except.ok m, w1) => fetchLoop env ctx rest (mergeInto result (env.rangeOrder w1.calls m)) w1

/-- The method `Context.fetchEtcdVariables`. -/
def fetchEtcdVariables (env : Env) (ctx : Context) (w : World) : Except String GoMap × World :=
  fetchLoop env ctx ctx.Namespaces [] w

/-! ## `shouldRestart` -/

/-- The function `containsString`. -/
def containsString : List GoString → GoString → Bool
  | [], _ => false
  | elt :: rest, item => if elt = item then true else containsString rest item

/-- The method `Context.shouldRestart`. -/
def shouldRestart (ctx : Context) (envVar value : GoString) : Bool :=
  if (match GoMap.find ctx.CurrentEnv envVar with
      | some v => v == value
      | none => false) then
    false
  else if ctx.WatchedKeys.length == 0 || containsString ctx.WatchedKeys envVar then
    true
  else
    false

/-! ## The central loop of `Run` -/

/-- What the `select` of the central loop can receive: a value on
`responseChan`, a value on `ctx.ExitChan`, a status on `processExitChan`. -/
inductive Event where
  | change
  | exitSignal
  | processExit (status : Int)
deriving DecidableEq, Repr

/-- The state of the engine after one turn of the central loop: the loop goes
on with a context, the process has ended with `os.Exit(status)`, a panic has
ended it, or the loop is blocked for ever in a channel send. -/
inductive Outcome where
  | running (ctx : Context)
  | exited (status : Int)
  | panicked (msg : String)
  | blocked
deriving DecidableEq, Repr

/-- The statements `ctx.CurrentEnv = ctx.fetchEtcdVariables()` and
`ctx.Runner.Restart(ctx.CurrentEnv)`, shared by lines 180-181 and 192-193. -/
def refreshAndRestart (env : Env) (ctx : Context) (w : World) : Outcome × World :=
  match fetchEtcdVariables env ctx w with
  | (Except.error msg, w1) => (Outcome.panicked msg, w1)
  | (Except.ok m, w1) =>
    (Outcome.running { ctx with CurrentEnv := m }, w1.emit (Action.restart m))

/-- One turn of the `for { select { ... } }` of `Run` (lines 176 to 197). -/
def loopStep (env : Env) (ctx : Context) (ev : Event) (w : World) : Outcome × World :=
  match ev with
  | Event.change =>
    refreshAndRestart env ctx (w.emit (Action.log LogLine.processRestarted))
  | Event.exitSignal => (Outcome.running ctx, w.emit Action.stop)
  | Event.processExit status =>
    let w1 := w.emit (Action.log (LogLine.processExited status))
    if ctx.ShutdownBehavour = lit "exit" then
      if env.exitChanReceiver then
        (Outcome.exited status, (w1.emit Action.sendExitChan).emit (Action.osExit status))
      else
        (Outcome.blocked, w1)
    else if ctx.ShutdownBehavour = lit "restart" then
      match refreshAndRestart env ctx (w1.emit (Action.log LogLine.processRestarted)) with
      | (Outcome.running ctx1, w2) => (Outcome.running ctx1, w2.emit Action.watchProcess)
      | (out, w2) => (out, w2)
    else
      (Outcome.running ctx, w1)

/-! ## Notions used to state the properties of the fetchers -/

/-- The mappings that the calls `fetchEtcdNamespaceVariables(namespace, 0, b)`
of one fetch cycle return, one per namespace of the list and in list order;
`none` when one of the calls panics. -/
def namespaceMappings (env : Env) (ctx : Context) : List GoString → World → Option (List GoMap)
  | [], _ => some []
  | ns :: rest, w =>
    match fetchEtcdNamespaceVariables env ctx ns 0 (w.emit Action.backoffReset) with
    | (Except.error _, _) => none
    | (Except.ok m, w1) => (namespaceMappings env ctx rest w1).map (fun ms => m :: ms)

/-- The value of `x` in the earliest mapping of the list that has `x`. -/
def firstValue (ms : List GoMap) (x : GoString) : Option GoString :=
  ms.findSome? (fun m => GoMap.find m x)

/-- The action is a `Get` call answered with an error that is not of the
recognized type. -/
def Action.isUnrecognized : Action → Bool
  | Action.get _ (GetResult.otherError _) => true
  | _ => false

/-- The action belongs to the fetch path: a `Get` call, a backoff operation or
a log line. The other actions are the calls to the process supervisor, the
send on `ExitChan` and `os.Exit`. -/
def Action.isFetchEffect : Action → Bool
  | Action.get _ _ => true
  | Action.backoffReset => true
  | Action.backoffSleep => true
  | Action.log _ => true
  | _ => false

/-- Among the given effects, those that are not of the fetch path, in order:
the calls to the process supervisor, the sends on `ExitChan` and `os.Exit`. -/
def supervision (acts : List Action) : List Action :=
  acts.filter (fun a => !Action.isFetchEffect a)

/-- The effects recorded between the world `w` and the later world `w1`. -/
def emitted (w w1 : World) : List Action := w1.trace.drop w.trace.length

/-- The world `w1` extends `w` by effects of the fetch path only. -/
def FetchOnly (w w1 : World) : Prop :=
  ∃ acts, w1.trace = w.trace ++ acts ∧ ∀ a ∈ acts, Action.isFetchEffect a = true

/-- The world in which the retry of `fetchEtcdNamespaceVariables` runs, after
a recognized error with code `errorCode`. -/
def retryWorld (env : Env) (ns : GoString) (errorCode : Int) (w : World) : World :=
  ((logErrorCode env errorCode
      (World.emit { calls := w.calls + 1,
                    trace := w.trace ++ [Action.get ns (GetResult.etcdError errorCode)] }
        (Action.log LogLine.errorText))).emit
    (Action.log LogLine.retryFetching)).emit Action.backoffSleep

/-- The world in which `fetchEtcdNamespaceVariables` gives up, after a
recognized error with code `errorCode`. -/
def giveUpWorld (env : Env) (ns : GoString) (errorCode : Int) (w : World) : World :=
  logErrorCode env errorCode
    (World.emit { calls := w.calls + 1,
                  trace := w.trace ++ [Action.get ns (GetResult.etcdError errorCode)] }
      (Action.log LogLine.errorText))

/-! ## Concrete inputs -/

/-- A context as `NewContext` builds it for the given namespaces, shutdown
behaviour and watched keys, with the given current snapshot. -/
def sampleContext (namespaces : List GoString) (shutdownBehavour : GoString)
    (watchedKeys : List GoString) (currentEnv : GoMap) : Context :=
  { Namespaces := namespaces
    Runner := { command := [lit "app"] }
    etcdClient := { endpoints := [lit "http://127.0.0.1:4001"] }
    ShutdownBehavour := shutdownBehavour
    WatchedKeys := watchedKeys
    CurrentEnv := currentEnv
    maxRetry := 3 }

/-- A store with two namespaces that answer, `"/a"` with `x = 1` and `"/b"`
with `x = 2, y = 3`, a namespace `"/down"` that is never reachable (code 501),
and a namespace `"/broken"` whose answer is an error of an unrecognized type. -/
def sampleStore : Nat → GoString → GetResult := fun _ ns =>
  if ns = lit "/a" then GetResult.ok [⟨lit "/a/x", lit "1"⟩]
  else if ns = lit "/b" then GetResult.ok [⟨lit "/b/x", lit "2"⟩, ⟨lit "/b/y", lit "3"⟩]
  else if ns = lit "/down" then GetResult.etcdError 501
  else if ns = lit "/broken" then GetResult.otherError "unexpected end of JSON input"
  else GetResult.ok []

/-- An environment around `sampleStore`, in which `range` visits a map in the
order of insertion. -/
def sampleEnv (exitChanReceiver : Bool) : Env :=
  { store := sampleStore
    rangeOrder := fun _ m => m
    ErrCodeEtcdNotReachable := 501
    ErrKeyNotFound := 100
    exitChanReceiver := exitChanReceiver }

/-- The world before the first `Get` call. -/
def World.initial : World := { calls := 0, trace := [] }

/-! ## Properties of the strings -/

theorem HasPrefix_eq_isPrefixOf (s pre : GoString) : HasPrefix s pre = pre.isPrefixOf s := by
  rw [Bool.eq_iff_iff, List.isPrefixOf_iff_prefix, List.prefix_iff_eq_take]
  simp only [HasPrefix, Bool.and_eq_true, decide_eq_true_eq, beq_iff_eq]
  constructor
  · rintro ⟨-, h⟩
    exact h.symm
  · intro h
    refine ⟨?_, h.symm⟩
    have := congrArg List.length h
    simp only [List.length_take] at this
    omega

theorem HasPrefix_iff (s pre : GoString) : HasPrefix s pre = true ↔ pre <+: s := by
  rw [HasPrefix_eq_isPrefixOf, List.isPrefixOf_iff_prefix]

theorem HasPrefix_nil (s : GoString) : HasPrefix s [] = true := by
  simp [HasPrefix]

theorem lit_slash : lit "/" = [47] := by decide

theorem HasPrefix_slash (s : GoString) :
    HasPrefix s (lit "/") = true ↔ ∃ rest, s = 47 :: rest := by
  rw [HasPrefix_iff]
  constructor
  · rintro ⟨t, rfl⟩
    exact ⟨t, rfl⟩
  · rintro ⟨rest, rfl⟩
    exact ⟨rest, rfl⟩

theorem TrimPrefix_slash_cons (c : UInt8) (rest : GoString) :
    TrimPrefix (c :: rest) (lit "/") = if c = 47 then rest else c :: rest := by
  by_cases hc : c = 47
  · subst hc
    simp [TrimPrefix, HasPrefix, lit_slash]
  · have : HasPrefix (c :: rest) (lit "/") = false := by
      rw [Bool.eq_false_iff]
      intro h
      obtain ⟨r, hr⟩ := (HasPrefix_slash _).1 h
      exact hc (List.cons.inj hr).1
    simp [TrimPrefix, this, hc]

theorem escapeNamespaceLoop_eq (ns : List GoString) (k : GoString) :
    escapeNamespaceLoop ns k =
      match ns.find? (fun n => n.isPrefixOf k) with
      | some n => k.drop n.length
      | none => k := by
  induction ns with
  | nil => rfl
  | cons n rest ih =>
    by_cases h : HasPrefix k n = true
    · have h2 : n.isPrefixOf k = true := by rw [← HasPrefix_eq_isPrefixOf]; exact h
      simp [escapeNamespaceLoop, TrimPrefix, h, h2, List.find?_cons]
    · have h2 : n.isPrefixOf k = false := by
        rw [← HasPrefix_eq_isPrefixOf]; simpa using h
      simp only [escapeNamespaceLoop, h, List.find?_cons, h2]
      simpa using ih

/-! ## The namespace key resolver -/

/-- C1: for every ordered namespace list and every key, `escapeNamespace`
returns the value of the reference `escapeNamespaceRef`: the key without the
first namespace of the list (in list order) that is a prefix of it, then
without one leading separator. The function is total. -/
theorem escapeNamespace_eq_ref (ctx : Context) (k : GoString) :
    escapeNamespace ctx k = escapeNamespaceRef ctx.Namespaces k := by
  unfold escapeNamespace escapeNamespaceRef
  rw [escapeNamespaceLoop_eq]
  generalize (match ctx.Namespaces.find? (fun n => n.isPrefixOf k) with
      | some n => k.drop n.length
      | none => k) = r
  cases r with
  | nil => rfl
  | cons c rest => exact TrimPrefix_slash_cons c rest

theorem escapeNamespaceLoop_of_no_match (ns : List GoString) (k : GoString)
    (h : ∀ n ∈ ns, HasPrefix k n = false) : escapeNamespaceLoop ns k = k := by
  induction ns with
  | nil => rfl
  | cons n rest ih =>
    have hn : HasPrefix k n = false := h n (List.mem_cons_self _ _)
    simp only [escapeNamespaceLoop, hn]
    exact ih (fun m hm => h m (List.mem_cons_of_mem _ hm))

/-- C7, as it fails. Under the namespace list `["/a"]` the key `"/a//a/b"` has
the namespace as a prefix and resolves to `"/a/b"`, which starts with the
separator, has the namespace as a prefix, and resolves further to `"b"`. Under
the namespace list `["a"]`, whose namespace does not start with the separator,
the key `"aab"` resolves to `"ab"`, which has the namespace as a prefix and
resolves further to `"b"`. -/
theorem escapeNamespace_residue_counterexample :
    ((∃ n ∈ (sampleContext [lit "/a"] (lit "keepalive") [] []).Namespaces,
        HasPrefix (lit "/a//a/b") n = true) ∧
      escapeNamespace (sampleContext [lit "/a"] (lit "keepalive") [] []) (lit "/a//a/b")
        = lit "/a/b" ∧
      HasPrefix (lit "/a/b") (lit "/") = true ∧
      (∃ n ∈ (sampleContext [lit "/a"] (lit "keepalive") [] []).Namespaces,
        HasPrefix (lit "/a/b") n = true) ∧
      escapeNamespace (sampleContext [lit "/a"] (lit "keepalive") [] []) (lit "/a/b")
        = lit "b" ∧
      lit "b" ≠ lit "/a/b") ∧
    ((∃ n ∈ (sampleContext [lit "a"] (lit "keepalive") [] []).Namespaces,
        HasPrefix (lit "aab") n = true) ∧
      escapeNamespace (sampleContext [lit "a"] (lit "keepalive") [] []) (lit "aab")
        = lit "ab" ∧
      (∃ n ∈ (sampleContext [lit "a"] (lit "keepalive") [] []).Namespaces,
        HasPrefix (lit "ab") n = true) ∧
      escapeNamespace (sampleContext [lit "a"] (lit "keepalive") [] []) (lit "ab")
        = lit "b" ∧
      lit "b" ≠ lit "ab") := by
  decide

/-- One namespace and at most one separator are removed: (a) the resolved name
does not start with the separator when the key without its first matching
namespace does not start with two separators, and (b) when the resolved name
neither starts with the separator nor has an element of the namespace list as
a prefix, resolving it again returns it unchanged. -/
theorem escapeNamespace_fixed_point (ctx : Context) (k : GoString) :
    (HasPrefix (escapeNamespaceLoop ctx.Namespaces k) (lit "//") = false →
      HasPrefix (escapeNamespace ctx k) (lit "/") = false) ∧
    (HasPrefix (escapeNamespace ctx k) (lit "/") = false →
      (∀ n ∈ ctx.Namespaces, HasPrefix (escapeNamespace ctx k) n = false) →
      escapeNamespace ctx (escapeNamespace ctx k) = escapeNamespace ctx k) := by
  constructor
  · intro h
    unfold escapeNamespace
    generalize escapeNamespaceLoop ctx.Namespaces k = r at h ⊢
    cases r with
    | nil => decide
    | cons c rest =>
      rw [TrimPrefix_slash_cons]
      by_cases hc : c = 47
      · subst hc
        simp only [if_true]
        rw [Bool.eq_false_iff]
        intro hs
        obtain ⟨t, rfl⟩ := (HasPrefix_slash _).1 hs
        have : HasPrefix (47 :: 47 :: t) (lit "//") = true := by
          rw [HasPrefix_iff]
          exact ⟨t, rfl⟩
        rw [this] at h
        exact Bool.noConfusion h
      · simp only [hc, if_false]
        rw [Bool.eq_false_iff]
        intro hs
        obtain ⟨t, ht⟩ := (HasPrefix_slash _).1 hs
        exact hc (List.cons.inj ht).1
  · intro hs hn
    generalize escapeNamespace ctx k = r at hs hn
    unfold escapeNamespace
    rw [escapeNamespaceLoop_of_no_match _ _ hn]
    simp [TrimPrefix, hs]

/-- C7, amended: for every namespace list whose namespaces all start with the
separator `"/"`, and every key in which the first matching namespace is not
followed by two separators (every key, when no namespace matches, that does
not start with two separators), the resolved name does not start with the
separator, has no namespace of the list as a prefix, and is resolved to
itself. -/
theorem escapeNamespace_idempotent (ctx : Context) (k : GoString)
    (hns : ∀ n ∈ ctx.Namespaces, HasPrefix n (lit "/") = true)
    (hclean : HasPrefix (escapeNamespaceLoop ctx.Namespaces k) (lit "//") = false) :
    HasPrefix (escapeNamespace ctx k) (lit "/") = false ∧
    (∀ n ∈ ctx.Namespaces, HasPrefix (escapeNamespace ctx k) n = false) ∧
    escapeNamespace ctx (escapeNamespace ctx k) = escapeNamespace ctx k := by
  have hslash : HasPrefix (escapeNamespace ctx k) (lit "/") = false :=
    (escapeNamespace_fixed_point ctx k).1 hclean
  have hnone : ∀ n ∈ ctx.Namespaces, HasPrefix (escapeNamespace ctx k) n = false := by
    intro n hn
    rw [Bool.eq_false_iff]
    intro hp
    have h1 : lit "/" <+: n := (HasPrefix_iff _ _).1 (hns n hn)
    have h2 : n <+: escapeNamespace ctx k := (HasPrefix_iff _ _).1 hp
    have h3 : HasPrefix (escapeNamespace ctx k) (lit "/") = true :=
      (HasPrefix_iff _ _).2 (h1.trans h2)
    rw [hslash] at h3
    exact Bool.noConfusion h3
  exact ⟨hslash, hnone, (escapeNamespace_fixed_point ctx k).2 hslash hnone⟩

/-- A key under a configured namespace: `"/a/b"` resolves to `"b"` under
`["/a"]`, which has no separator or namespace left and is a fixed point. -/
theorem escapeNamespace_idempotent_witness :
    escapeNamespace (sampleContext [lit "/a"] (lit "keepalive") [] []) (lit "/a/b") = lit "b" ∧
    HasPrefix (escapeNamespace (sampleContext [lit "/a"] (lit "keepalive") [] []) (lit "/a/b"))
      (lit "/") = false ∧
    (∀ n ∈ (sampleContext [lit "/a"] (lit "keepalive") [] []).Namespaces,
      HasPrefix (escapeNamespace (sampleContext [lit "/a"] (lit "keepalive") [] [])
        (lit "/a/b")) n = false) ∧
    escapeNamespace (sampleContext [lit "/a"] (lit "keepalive") [] [])
        (escapeNamespace (sampleContext [lit "/a"] (lit "keepalive") [] []) (lit "/a/b"))
      = escapeNamespace (sampleContext [lit "/a"] (lit "keepalive") [] []) (lit "/a/b") :=
  ⟨by decide,
   escapeNamespace_idempotent (sampleContext [lit "/a"] (lit "keepalive") [] []) (lit "/a/b")
     (by decide) (by decide)⟩

/-! ## The restart decision -/

theorem containsString_iff (keys : List GoString) (item : GoString) :
    containsString keys item = true ↔ item ∈ keys := by
  induction keys with
  | nil => simp [containsString]
  | cons elt rest ih =>
    by_cases h : elt = item
    · simp [containsString, h]
    · have h2 : ¬ item = elt := fun e => h e.symm
      simp [containsString, h, h2, ih]

/-- C2: `shouldRestart(name, newValue)` is false whenever the snapshot has
`name` with exactly `newValue`, whatever the allow-list; otherwise it is true
exactly when the allow-list is empty or has `name`. With the allow-list
`["FOO"]`, a change to `"BAR"` is never a restart, and a change of `"FOO"` to
a value other than its snapshot value is one. -/
theorem shouldRestart_spec (ctx : Context) (name newValue : GoString) :
    (GoMap.find ctx.CurrentEnv name = some newValue →
      shouldRestart ctx name newValue = false) ∧
    (GoMap.find ctx.CurrentEnv name ≠ some newValue →
      (shouldRestart ctx name newValue = true ↔
        ctx.WatchedKeys = [] ∨ name ∈ ctx.WatchedKeys)) ∧
    (ctx.WatchedKeys = [lit "FOO"] →
      shouldRestart ctx (lit "BAR") newValue = false ∧
      (GoMap.find ctx.CurrentEnv (lit "FOO") ≠ some newValue →
        shouldRestart ctx (lit "FOO") newValue = true)) := by
  have key : ∀ (n v : GoString), GoMap.find ctx.CurrentEnv n ≠ some v →
      (shouldRestart ctx n v = true ↔ ctx.WatchedKeys = [] ∨ n ∈ ctx.WatchedKeys) := by
    intro n v h
    unfold shouldRestart
    cases hf : GoMap.find ctx.CurrentEnv n with
    | none => simp [containsString_iff, List.length_eq_zero]
    | some u =>
      have hu : ¬ u = v := fun e => h (by rw [hf, e])
      simp [hu, containsString_iff, List.length_eq_zero]
  refine ⟨?_, key name newValue, ?_⟩
  · intro h
    simp [shouldRestart, h]
  · intro hw
    constructor
    · cases hf : GoMap.find ctx.CurrentEnv (lit "BAR") with
      | none =>
        simp only [shouldRestart, hf, hw]
        decide
      | some u =>
        by_cases hu : u = newValue
        · simp [shouldRestart, hf, hu]
        · simp only [shouldRestart, hf, hw]
          simp only [beq_iff_eq, hu]
          decide
    · intro h
      rw [key _ _ h, hw]
      exact Or.inr (List.mem_singleton_self _)

/-- The snapshot `FOO="bar"` with the allow-list `["FOO"]`: republishing
`FOO="bar"` is no restart, `FOO="baz"` is one, and `BAR="baz"` is none. -/
theorem shouldRestart_spec_witness :
    shouldRestart (sampleContext [lit "/a"] (lit "keepalive") [lit "FOO"]
        [(lit "FOO", lit "bar")]) (lit "FOO") (lit "bar") = false ∧
    shouldRestart (sampleContext [lit "/a"] (lit "keepalive") [lit "FOO"]
        [(lit "FOO", lit "bar")]) (lit "FOO") (lit "baz") = true ∧
    shouldRestart (sampleContext [lit "/a"] (lit "keepalive") [lit "FOO"]
        [(lit "FOO", lit "bar")]) (lit "BAR") (lit "baz") = false :=
  ⟨(shouldRestart_spec (sampleContext [lit "/a"] (lit "keepalive") [lit "FOO"]
      [(lit "FOO", lit "bar")]) (lit "FOO") (lit "bar")).1 (by decide),
   ((shouldRestart_spec (sampleContext [lit "/a"] (lit "keepalive") [lit "FOO"]
      [(lit "FOO", lit "bar")]) (lit "FOO") (lit "baz")).2.2 rfl).2 (by decide),
   ((shouldRestart_spec (sampleContext [lit "/a"] (lit "keepalive") [lit "FOO"]
      [(lit "FOO", lit "bar")]) (lit "FOO") (lit "baz")).2.2 rfl).1⟩

/-! ## The constructor -/

/-- C4: `NewContext` returns an error, and no context, exactly when the
shutdown behaviour is none of `"keepalive"`, `"restart"`, `"exit"`; when it is
one of them, `NewContext` returns a context with the namespaces, watched keys
and shutdown behaviour given, the empty snapshot and `maxRetry = 3`. -/
theorem NewContext_spec (namespaces endpoints command : List GoString)
    (shutdownBehavour : GoString) (watchedKeys : List GoString) :
    ((∃ msg, NewContext namespaces endpoints command shutdownBehavour watchedKeys
        = Except.error msg) ↔
      ¬ (shutdownBehavour = lit "keepalive" ∨ shutdownBehavour = lit "restart" ∨
          shutdownBehavour = lit "exit")) ∧
    ((shutdownBehavour = lit "keepalive" ∨ shutdownBehavour = lit "restart" ∨
        shutdownBehavour = lit "exit") →
      ∃ ctx, NewContext namespaces endpoints command shutdownBehavour watchedKeys
          = Except.ok ctx ∧
        ctx.Namespaces = namespaces ∧ ctx.WatchedKeys = watchedKeys ∧
        ctx.ShutdownBehavour = shutdownBehavour ∧ ctx.CurrentEnv = [] ∧ ctx.maxRetry = 3) := by
  by_cases h : shutdownBehavour = lit "keepalive" ∨ shutdownBehavour = lit "restart" ∨
      shutdownBehavour = lit "exit"
  · have h2 : ¬ (shutdownBehavour ≠ lit "keepalive" ∧ shutdownBehavour ≠ lit "restart" ∧
        shutdownBehavour ≠ lit "exit") := by
      rintro ⟨a, b, c⟩
      rcases h with h | h | h
      · exact a h
      · exact b h
      · exact c h
    refine ⟨⟨?_, fun hn => absurd h hn⟩, fun _ => ?_⟩
    · rintro ⟨msg, hm⟩
      unfold NewContext at hm
      rw [if_neg h2] at hm
      exact Except.noConfusion hm
    · have hok : NewContext namespaces endpoints command shutdownBehavour watchedKeys
          = Except.ok
              { Namespaces := namespaces
                Runner := { command := command }
                etcdClient := { endpoints := endpoints }
                ShutdownBehavour := shutdownBehavour
                WatchedKeys := watchedKeys
                CurrentEnv := []
                maxRetry := 3 } := by
        unfold NewContext
        rw [if_neg h2]
      exact ⟨_, hok, rfl, rfl, rfl, rfl, rfl⟩
  · have h2 : shutdownBehavour ≠ lit "keepalive" ∧ shutdownBehavour ≠ lit "restart" ∧
        shutdownBehavour ≠ lit "exit" :=
      ⟨fun e => h (Or.inl e), fun e => h (Or.inr (Or.inl e)), fun e => h (Or.inr (Or.inr e))⟩
    refine ⟨⟨fun _ => h, fun _ =>
      ⟨"Choose a correct variable for the shutdown behavour", ?_⟩⟩, fun hn => absurd hn h⟩
    unfold NewContext
    rw [if_pos h2]

/-- The behaviour `"restart"` gives a context; the behaviour `"stop"` gives
the error. -/
theorem NewContext_spec_witness :
    (∃ ctx, NewContext [lit "/a"] [lit "http://127.0.0.1:4001"] [lit "app"] (lit "restart")
        [lit "FOO"] = Except.ok ctx ∧
      ctx.Namespaces = [lit "/a"] ∧ ctx.WatchedKeys = [lit "FOO"] ∧
      ctx.ShutdownBehavour = lit "restart" ∧ ctx.CurrentEnv = [] ∧ ctx.maxRetry = 3) ∧
    (∃ msg, NewContext [lit "/a"] [lit "http://127.0.0.1:4001"] [lit "app"] (lit "stop")
        [lit "FOO"] = Except.error msg) :=
  ⟨(NewContext_spec [lit "/a"] [lit "http://127.0.0.1:4001"] [lit "app"] (lit "restart")
      [lit "FOO"]).2 (by decide),
   (NewContext_spec [lit "/a"] [lit "http://127.0.0.1:4001"] [lit "app"] (lit "stop")
      [lit "FOO"]).1.2 (by decide)⟩

/-! ## Properties of the maps -/

theorem GoMap.find_insertIfAbsent (m : GoMap) (k v x : GoString) :
    GoMap.find (GoMap.insertIfAbsent m k v) x
      = (GoMap.find m x).or (if x = k then some v else none) := by
  unfold GoMap.insertIfAbsent
  cases hk : GoMap.find m k with
  | some u =>
    by_cases hx : x = k
    · subst hx
      simp [hk]
    · simp [hx]
  | none =>
    simp only [GoMap.find, List.lookup_append]
    by_cases hx : x = k
    · simp [hx, List.lookup_cons]
    · have hb : (x == k) = false := by simpa using hx
      simp [hx, hb, List.lookup_cons]

theorem GoMap.find_mergeInto (entries result : GoMap) (x : GoString) :
    GoMap.find (mergeInto result entries) x = (GoMap.find result x).or (GoMap.find entries x) := by
  induction entries generalizing result with
  | nil => simp [mergeInto, GoMap.find]
  | cons kv rest ih =>
    obtain ⟨k, v⟩ := kv
    have hstep : mergeInto result ((k, v) :: rest)
        = mergeInto (GoMap.insertIfAbsent result k v) rest := rfl
    rw [hstep, ih, GoMap.find_insertIfAbsent]
    by_cases hx : x = k
    · subst hx
      cases GoMap.find result x <;> simp [GoMap.find, List.lookup_cons]
    · have hb : (x == k) = false := by simpa using hx
      cases GoMap.find result x <;> simp [GoMap.find, List.lookup_cons, hx, hb]

theorem GoMap.mem_keys_iff (m : GoMap) (x : GoString) :
    x ∈ GoMap.keys m ↔ ∃ v, GoMap.find m x = some v := by
  induction m with
  | nil => simp [GoMap.keys, GoMap.find]
  | cons kv rest ih =>
    obtain ⟨k, v⟩ := kv
    by_cases hx : x = k
    · subst hx
      simp [GoMap.keys, GoMap.find, List.lookup_cons]
    · have hb : (x == k) = false := by simpa using hx
      have ih2 : x ∈ List.map Prod.fst rest ↔ ∃ v, List.lookup x rest = some v := ih
      simp only [GoMap.keys, GoMap.find, List.map_cons, List.mem_cons, hx, false_or,
        List.lookup_cons, hb]
      exact ih2

theorem GoMap.find_eq_some_iff (m : GoMap) (hm : (GoMap.keys m).Nodup) (x v : GoString) :
    GoMap.find m x = some v ↔ (x, v) ∈ m := by
  induction m with
  | nil => simp [GoMap.find]
  | cons kv rest ih =>
    obtain ⟨k, u⟩ := kv
    have hnd : k ∉ GoMap.keys rest ∧ (GoMap.keys rest).Nodup := by
      simpa [GoMap.keys] using hm
    by_cases hx : x = k
    · subst hx
      have hnot : (x, v) ∉ rest := fun hmem =>
        hnd.1 (List.mem_map.2 ⟨(x, v), hmem, rfl⟩)
      simp only [GoMap.find, List.lookup_cons, beq_self_eq_true, Option.some.injEq,
        List.mem_cons, Prod.mk.injEq, true_and]
      constructor
      · intro h
        exact Or.inl h.symm
      · rintro (h | h)
        · exact h.symm
        · exact absurd h hnot
    · have hb : (x == k) = false := by simpa using hx
      have ih2 : List.lookup x rest = some v ↔ (x, v) ∈ rest := ih hnd.2
      simp only [GoMap.find, List.lookup_cons, hb, List.mem_cons, Prod.mk.injEq, hx,
        false_and, false_or]
      exact ih2

/-- The lookups of a map do not depend on the order of its entries. -/
theorem GoMap.find_perm (m1 m2 : GoMap) (hp : m1.Perm m2) (hm : (GoMap.keys m2).Nodup)
    (x : GoString) : GoMap.find m1 x = GoMap.find m2 x := by
  have hm1 : (GoMap.keys m1).Nodup := ((hp.map Prod.fst).nodup_iff).2 hm
  apply Option.ext
  intro v
  show GoMap.find m1 x = some v ↔ GoMap.find m2 x = some v
  rw [GoMap.find_eq_some_iff m1 hm1, GoMap.find_eq_some_iff m2 hm]
  exact hp.mem_iff

theorem GoMap.keys_insertIfAbsent_nodup (m : GoMap) (k v : GoString)
    (hm : (GoMap.keys m).Nodup) : (GoMap.keys (GoMap.insertIfAbsent m k v)).Nodup := by
  unfold GoMap.insertIfAbsent
  cases hk : GoMap.find m k with
  | some u => exact hm
  | none =>
    have hnot : k ∉ GoMap.keys m := by
      intro hmem
      obtain ⟨u, hu⟩ := (GoMap.mem_keys_iff m k).1 hmem
      rw [hk] at hu
      exact Option.noConfusion hu
    simp only [GoMap.keys, List.map_append, List.map_cons, List.map_nil]
    rw [List.nodup_append]
    refine ⟨hm, List.nodup_singleton _, ?_⟩
    intro a ha hb
    rw [List.mem_singleton] at hb
    subst hb
    exact hnot ha

theorem nodesLoop_keys_nodup (ctx : Context) (nodes : List Node) (result : GoMap)
    (hm : (GoMap.keys result).Nodup) : (GoMap.keys (nodesLoop ctx nodes result)).Nodup := by
  induction nodes generalizing result with
  | nil => exact hm
  | cons node rest ih =>
    exact ih _ (GoMap.keys_insertIfAbsent_nodup _ _ _ hm)

/-! ## Properties of the namespace fetcher -/

@[simp] theorem World.emit_calls (w : World) (a : Action) : (w.emit a).calls = w.calls := rfl

@[simp] theorem World.emit_trace (w : World) (a : Action) :
    (w.emit a).trace = w.trace ++ [a] := rfl

@[simp] theorem logErrorCode_calls (env : Env) (errorCode : Int) (w : World) :
    (logErrorCode env errorCode w).calls = w.calls := by
  unfold logErrorCode
  split
  · rfl
  · split <;> rfl

theorem logErrorCode_trace (env : Env) (errorCode : Int) (w : World) :
    ∃ lines, (logErrorCode env errorCode w).trace = w.trace ++ lines ∧
      ∀ a ∈ lines, Action.isUnrecognized a = false := by
  unfold logErrorCode
  split
  · exact ⟨[Action.log LogLine.cantJoin], rfl, by simp [Action.isUnrecognized]⟩
  · split
    · exact ⟨[Action.log LogLine.namespaceMissing], rfl, by simp [Action.isUnrecognized]⟩
    · exact ⟨[], by simp, by simp⟩

/-- A successful `Get`: the mapping of the nodes is returned after one call. -/
theorem fetchNs_ok (env : Env) (ctx : Context) (ns : GoString) (r : Int) (w : World)
    (nodes : List Node) (h : env.store w.calls ns = GetResult.ok nodes) :
    fetchEtcdNamespaceVariables env ctx ns r w
      = (Except.ok (nodesLoop ctx nodes []),
          { calls := w.calls + 1, trace := w.trace ++ [Action.get ns (GetResult.ok nodes)] }) := by
  rw [fetchEtcdNamespaceVariables]
  simp only [h]

/-- An error that is not of the recognized type: the panic, after one call. -/
theorem fetchNs_other (env : Env) (ctx : Context) (ns : GoString) (r : Int) (w : World)
    (msg : String) (h : env.store w.calls ns = GetResult.otherError msg) :
    fetchEtcdNamespaceVariables env ctx ns r w
      = (Except.error msg,
          { calls := w.calls + 1,
            trace := w.trace ++ [Action.get ns (GetResult.otherError msg)]
              ++ [Action.log LogLine.errorText] }) := by
  rw [fetchEtcdNamespaceVariables]
  simp only [h]
  rfl

/-- A recognized error, whatever its code: a retry below `maxRetry`, the empty
mapping otherwise. -/
theorem fetchNs_etcd (env : Env) (ctx : Context) (ns : GoString) (r : Int) (w : World)
    (errorCode : Int) (h : env.store w.calls ns = GetResult.etcdError errorCode) :
    fetchEtcdNamespaceVariables env ctx ns r w
      = if r < ctx.maxRetry then
          fetchEtcdNamespaceVariables env ctx ns (r + 1) (retryWorld env ns errorCode w)
        else (Except.ok [], giveUpWorld env ns errorCode w) := by
  rw [fetchEtcdNamespaceVariables]
  simp only [h]
  split <;> rfl

@[simp] theorem retryWorld_calls (env : Env) (ns : GoString) (errorCode : Int) (w : World) :
    (retryWorld env ns errorCode w).calls = w.calls + 1 := by
  simp [retryWorld]

@[simp] theorem giveUpWorld_calls (env : Env) (ns : GoString) (errorCode : Int) (w : World) :
    (giveUpWorld env ns errorCode w).calls = w.calls + 1 := by
  simp [giveUpWorld]

theorem giveUpWorld_trace (env : Env) (ns : GoString) (errorCode : Int) (w : World) :
    ∃ acts, (giveUpWorld env ns errorCode w).trace = w.trace ++ acts ∧
      ∀ a ∈ acts, Action.isUnrecognized a = false := by
  obtain ⟨lines, hl, hu⟩ := logErrorCode_trace env errorCode
    (World.emit { calls := w.calls + 1,
                  trace := w.trace ++ [Action.get ns (GetResult.etcdError errorCode)] }
      (Action.log LogLine.errorText))
  refine ⟨[Action.get ns (GetResult.etcdError errorCode), Action.log LogLine.errorText]
    ++ lines, ?_, ?_⟩
  · unfold giveUpWorld
    rw [hl]
    simp
  · intro a ha
    rcases List.mem_append.1 ha with h | h
    · simp only [List.mem_cons, List.mem_singleton, List.not_mem_nil, or_false] at h
      rcases h with h | h <;> subst h <;> rfl
    · exact hu a h

theorem retryWorld_trace (env : Env) (ns : GoString) (errorCode : Int) (w : World) :
    ∃ acts, (retryWorld env ns errorCode w).trace = w.trace ++ acts ∧
      ∀ a ∈ acts, Action.isUnrecognized a = false := by
  obtain ⟨acts, ha, hu⟩ := giveUpWorld_trace env ns errorCode w
  refine ⟨acts ++ [Action.log LogLine.retryFetching, Action.backoffSleep], ?_, ?_⟩
  · have : (retryWorld env ns errorCode w).trace
        = (giveUpWorld env ns errorCode w).trace
          ++ [Action.log LogLine.retryFetching, Action.backoffSleep] := by
      simp [retryWorld, giveUpWorld]
    rw [this, ha]
    simp
  · intro a h
    rcases List.mem_append.1 h with h | h
    · exact hu a h
    · simp only [List.mem_cons, List.mem_singleton, List.not_mem_nil, or_false] at h
      rcases h with h | h <;> subst h <;> rfl

/-- Every call of `fetchEtcdNamespaceVariables` returns; it issues at least one
`Get` call, only appends to the recorded effects, panics exactly when one of
its `Get` calls is answered with an unrecognized error, and the mapping it
returns has pairwise distinct keys. -/
theorem fetchNs_sound (env : Env) (ctx : Context) (ns : GoString) :
    ∀ (k : Nat) (r : Int) (w : World), (ctx.maxRetry - r).toNat ≤ k →
      ∃ acts, (fetchEtcdNamespaceVariables env ctx ns r w).2.trace = w.trace ++ acts ∧
        w.calls < (fetchEtcdNamespaceVariables env ctx ns r w).2.calls ∧
        ((∃ msg, (fetchEtcdNamespaceVariables env ctx ns r w).1 = Except.error msg) ↔
          ∃ a ∈ acts, Action.isUnrecognized a = true) ∧
        (∀ m, (fetchEtcdNamespaceVariables env ctx ns r w).1 = Except.ok m →
          (GoMap.keys m).Nodup) := by
  intro k
  induction k with
  | zero =>
    intro r w hk
    cases hs : env.store w.calls ns with
    | ok nodes =>
      rw [fetchNs_ok env ctx ns r w nodes hs]
      refine ⟨[Action.get ns (GetResult.ok nodes)], rfl, Nat.lt_succ_self _, ?_, ?_⟩
      · constructor
        · rintro ⟨msg, hm⟩
          exact Except.noConfusion hm
        · rintro ⟨a, ha, hu⟩
          rw [List.mem_singleton] at ha
          subst ha
          exact Bool.noConfusion hu
      · intro m hm
        cases hm
        exact nodesLoop_keys_nodup ctx nodes [] List.nodup_nil
    | otherError msg =>
      rw [fetchNs_other env ctx ns r w msg hs]
      refine ⟨[Action.get ns (GetResult.otherError msg), Action.log LogLine.errorText],
        by simp, Nat.lt_succ_self _, ?_, ?_⟩
      · exact ⟨fun _ => ⟨_, List.mem_cons_self _ _, rfl⟩, fun _ => ⟨msg, rfl⟩⟩
      · intro m hm
        exact Except.noConfusion hm
    | etcdError code =>
      have hnot : ¬ r < ctx.maxRetry := by omega
      rw [fetchNs_etcd env ctx ns r w code hs, if_neg hnot]
      obtain ⟨acts, ha, hu⟩ := giveUpWorld_trace env ns code w
      refine ⟨acts, ha, by simp, ?_, ?_⟩
      · constructor
        · rintro ⟨msg, hm⟩
          exact Except.noConfusion hm
        · rintro ⟨a, hmem, hau⟩
          rw [hu a hmem] at hau
          exact Bool.noConfusion hau
      · intro m hm
        cases hm
        exact List.nodup_nil
  | succ k ih =>
    intro r w hk
    cases hs : env.store w.calls ns with
    | ok nodes =>
      rw [fetchNs_ok env ctx ns r w nodes hs]
      refine ⟨[Action.get ns (GetResult.ok nodes)], rfl, Nat.lt_succ_self _, ?_, ?_⟩
      · constructor
        · rintro ⟨msg, hm⟩
          exact Except.noConfusion hm
        · rintro ⟨a, ha, hu⟩
          rw [List.mem_singleton] at ha
          subst ha
          exact Bool.noConfusion hu
      · intro m hm
        cases hm
        exact nodesLoop_keys_nodup ctx nodes [] List.nodup_nil
    | otherError msg =>
      rw [fetchNs_other env ctx ns r w msg hs]
      refine ⟨[Action.get ns (GetResult.otherError msg), Action.log LogLine.errorText],
        by simp, Nat.lt_succ_self _, ?_, ?_⟩
      · exact ⟨fun _ => ⟨_, List.mem_cons_self _ _, rfl⟩, fun _ => ⟨msg, rfl⟩⟩
      · intro m hm
        exact Except.noConfusion hm
    | etcdError code =>
      rw [fetchNs_etcd env ctx ns r w code hs]
      by_cases hlt : r < ctx.maxRetry
      · rw [if_pos hlt]
        obtain ⟨acts1, ha1, hu1⟩ := retryWorld_trace env ns code w
        obtain ⟨acts2, ha2, hc2, he2, hn2⟩ :=
          ih (r + 1) (retryWorld env ns code w) (by omega)
        refine ⟨acts1 ++ acts2, ?_, ?_, ?_, hn2⟩
        · rw [ha2, ha1, List.append_assoc]
        · rw [retryWorld_calls] at hc2
          omega
        · rw [he2]
          constructor
          · rintro ⟨a, hmem, hau⟩
            exact ⟨a, List.mem_append_right _ hmem, hau⟩
          · rintro ⟨a, hmem, hau⟩
            rcases List.mem_append.1 hmem with h | h
            · rw [hu1 a h] at hau
              exact Bool.noConfusion hau
            · exact ⟨a, h, hau⟩
      · rw [if_neg hlt]
        obtain ⟨acts, ha, hu⟩ := giveUpWorld_trace env ns code w
        refine ⟨acts, ha, by simp, ?_, ?_⟩
        · constructor
          · rintro ⟨msg, hm⟩
            exact Except.noConfusion hm
          · rintro ⟨a, hmem, hau⟩
            rw [hu a hmem] at hau
            exact Bool.noConfusion hau
        · intro m hm
          cases hm
          exact List.nodup_nil

/-- After `k + 1` recognized errors in a row, the first at a retry count `k`
below `maxRetry`, the fetcher has given up: the empty mapping, after exactly
`k + 1` calls. -/
theorem fetchNs_give_up (env : Env) (ctx : Context) (ns : GoString) :
    ∀ (k : Nat) (r : Int) (w : World), (ctx.maxRetry - r).toNat = k →
      (∀ i : Nat, i ≤ k → ∃ code, env.store (w.calls + i) ns = GetResult.etcdError code) →
      ∃ w2, fetchEtcdNamespaceVariables env ctx ns r w = (Except.ok [], w2) ∧
        w2.calls = w.calls + (k + 1) := by
  intro k
  induction k with
  | zero =>
    intro r w hk herr
    obtain ⟨code, hs⟩ := herr 0 (Nat.le_refl _)
    rw [Nat.add_zero] at hs
    have hnot : ¬ r < ctx.maxRetry := by omega
    rw [fetchNs_etcd env ctx ns r w code hs, if_neg hnot]
    exact ⟨_, rfl, by simp⟩
  | succ k ih =>
    intro r w hk herr
    obtain ⟨code, hs⟩ := herr 0 (Nat.zero_le _)
    rw [Nat.add_zero] at hs
    have hlt : r < ctx.maxRetry := by omega
    rw [fetchNs_etcd env ctx ns r w code hs, if_pos hlt]
    obtain ⟨w2, h2, hc2⟩ := ih (r + 1) (retryWorld env ns code w) (by omega) (by
      intro i hi
      obtain ⟨c, hc⟩ := herr (i + 1) (by omega)
      refine ⟨c, ?_⟩
      rw [retryWorld_calls]
      rw [← hc]
      congr 1
      omega)
    refine ⟨w2, h2, ?_⟩
    rw [hc2, retryWorld_calls]
    omega

/-! ## Properties of the aggregate fetcher -/

theorem fetchLoop_nil (env : Env) (ctx : Context) (result : GoMap) (w : World) :
    fetchLoop env ctx [] result w = (Except.ok result, w) := rfl

theorem fetchLoop_cons_ok (env : Env) (ctx : Context) (ns : GoString) (rest : List GoString)
    (result : GoMap) (w w1 : World) (m : GoMap)
    (h : fetchEtcdNamespaceVariables env ctx ns 0 (w.emit Action.backoffReset)
      = (Except.ok m, w1)) :
    fetchLoop env ctx (ns :: rest) result w
      = fetchLoop env ctx rest (mergeInto result (env.rangeOrder w1.calls m)) w1 := by
  simp only [fetchLoop, h]

theorem fetchLoop_cons_error (env : Env) (ctx : Context) (ns : GoString)
    (rest : List GoString) (result : GoMap) (w w1 : World) (msg : String)
    (h : fetchEtcdNamespaceVariables env ctx ns 0 (w.emit Action.backoffReset)
      = (Except.error msg, w1)) :
    fetchLoop env ctx (ns :: rest) result w = (Except.error msg, w1) := by
  simp only [fetchLoop, h]

/-- The loop over `pre ++ post` is the loop over `post`, started where the
loop over `pre` has ended. -/
theorem fetchLoop_append (env : Env) (ctx : Context) (pre post : List GoString)
    (result r1 : GoMap) (w w1 : World)
    (h : fetchLoop env ctx pre result w = (Except.ok r1, w1)) :
    fetchLoop env ctx (pre ++ post) result w = fetchLoop env ctx post r1 w1 := by
  induction pre generalizing result w with
  | nil =>
    rw [fetchLoop_nil] at h
    cases h
    rfl
  | cons ns rest ih =>
    cases hres : fetchEtcdNamespaceVariables env ctx ns 0 (w.emit Action.backoffReset) with
    | mk out w0 =>
      cases out with
      | error msg =>
        rw [fetchLoop_cons_error env ctx ns rest result w w0 msg hres] at h
        cases h
      | ok m =>
        rw [fetchLoop_cons_ok env ctx ns rest result w w0 m hres] at h
        rw [List.cons_append, fetchLoop_cons_ok env ctx ns (rest ++ post) result w w0 m hres]
        exact ih _ _ h

/-- The loop only appends to the recorded effects, and it panics exactly when
one of its `Get` calls is answered with an unrecognized error. -/
theorem fetchLoop_sound (env : Env) (ctx : Context) (nss : List GoString) :
    ∀ (result : GoMap) (w : World),
      ∃ acts, (fetchLoop env ctx nss result w).2.trace = w.trace ++ acts ∧
        ((∃ msg, (fetchLoop env ctx nss result w).1 = Except.error msg) ↔
          ∃ a ∈ acts, Action.isUnrecognized a = true) := by
  induction nss with
  | nil =>
    intro result w
    refine ⟨[], by simp [fetchLoop_nil], ?_⟩
    constructor
    · rintro ⟨msg, hm⟩
      rw [fetchLoop_nil] at hm
      exact Except.noConfusion hm
    · rintro ⟨a, ha, -⟩
      exact absurd ha (List.not_mem_nil a)
  | cons ns rest ih =>
    intro result w
    obtain ⟨acts1, ht1, -, he1, -⟩ :=
      fetchNs_sound env ctx ns _ 0 (w.emit Action.backoffReset) (Nat.le_refl _)
    cases hres : fetchEtcdNamespaceVariables env ctx ns 0 (w.emit Action.backoffReset) with
    | mk out w0 =>
      rw [hres] at ht1 he1
      cases out with
      | error msg =>
        rw [fetchLoop_cons_error env ctx ns rest result w w0 msg hres]
        refine ⟨Action.backoffReset :: acts1, ?_, ?_⟩
        · show w0.trace = _
          rw [show w0.trace = (w.emit Action.backoffReset).trace ++ acts1 from ht1]
          simp
        · refine ⟨fun _ => ?_, fun _ => ⟨msg, rfl⟩⟩
          obtain ⟨a, ha, hu⟩ := he1.1 ⟨msg, rfl⟩
          exact ⟨a, List.mem_cons_of_mem _ ha, hu⟩
      | ok m =>
        rw [fetchLoop_cons_ok env ctx ns rest result w w0 m hres]
        obtain ⟨acts2, ht2, he2⟩ := ih (mergeInto result (env.rangeOrder w0.calls m)) w0
        have hno : ∀ a ∈ acts1, Action.isUnrecognized a = false := by
          intro a ha
          cases hu : Action.isUnrecognized a with
          | false => rfl
          | true =>
            obtain ⟨msg, hm⟩ := he1.2 ⟨a, ha, hu⟩
            exact Except.noConfusion hm
        refine ⟨Action.backoffReset :: (acts1 ++ acts2), ?_, ?_⟩
        · rw [ht2, show w0.trace = (w.emit Action.backoffReset).trace ++ acts1 from ht1]
          simp
        · rw [he2]
          constructor
          · rintro ⟨a, ha, hu⟩
            exact ⟨a, List.mem_cons_of_mem _ (List.mem_append_right _ ha), hu⟩
          · rintro ⟨a, ha, hu⟩
            rcases List.mem_cons.1 ha with h | h
            · subst h
              exact Bool.noConfusion hu
            · rcases List.mem_append.1 h with h | h
              · rw [hno a h] at hu
                exact Bool.noConfusion hu
              · exact ⟨a, h, hu⟩

/-- First-write-wins: when every namespace of the list returns a mapping, the
loop returns a mapping, in which the value of a key is its value in `result`
or else in the earliest of the mappings that has the key. -/
theorem fetchLoop_find (env : Env) (ctx : Context)
    (horder : ∀ i m, (env.rangeOrder i m).Perm m) (nss : List GoString) :
    ∀ (result : GoMap) (w : World) (ms : List GoMap),
      namespaceMappings env ctx nss w = some ms →
      ms.length = nss.length ∧
      ∃ merged w1, fetchLoop env ctx nss result w = (Except.ok merged, w1) ∧
        ∀ x, GoMap.find merged x = (GoMap.find result x).or (firstValue ms x) := by
  induction nss with
  | nil =>
    intro result w ms hms
    simp only [namespaceMappings, Option.some.injEq] at hms
    subst hms
    refine ⟨rfl, result, w, rfl, fun x => ?_⟩
    simp [firstValue]
  | cons ns rest ih =>
    intro result w ms hms
    obtain ⟨-, -, -, -, hnd⟩ :=
      fetchNs_sound env ctx ns _ 0 (w.emit Action.backoffReset) (Nat.le_refl _)
    cases hres : fetchEtcdNamespaceVariables env ctx ns 0 (w.emit Action.backoffReset) with
    | mk out w0 =>
      rw [hres] at hnd
      cases out with
      | error msg =>
        simp only [namespaceMappings, hres] at hms
        exact Option.noConfusion hms
      | ok m =>
        simp only [namespaceMappings, hres, Option.map_eq_some'] at hms
        obtain ⟨ms1, hms1, rfl⟩ := hms
        obtain ⟨hlen, merged, w1, hloop, hfind⟩ :=
          ih (mergeInto result (env.rangeOrder w0.calls m)) w0 ms1 hms1
        refine ⟨by simp [hlen], merged, w1, ?_, fun x => ?_⟩
        · rw [fetchLoop_cons_ok env ctx ns rest result w w0 m hres]
          exact hloop
        · rw [hfind x, GoMap.find_mergeInto,
            GoMap.find_perm _ m (horder _ m) (hnd m rfl) x]
          simp only [firstValue, List.findSome?_cons]
          cases GoMap.find result x with
          | some u => simp
          | none =>
            cases GoMap.find m x with
            | some u => simp
            | none => simp

theorem firstValue_cons (m : GoMap) (ms : List GoMap) (x : GoString) :
    firstValue (m :: ms) x = (GoMap.find m x).or (firstValue ms x) := by
  simp only [firstValue, List.findSome?_cons]
  cases GoMap.find m x <;> rfl

theorem firstValue_append (ms1 ms2 : List GoMap) (x : GoString) :
    firstValue (ms1 ++ ms2) x = (firstValue ms1 x).or (firstValue ms2 x) := by
  simp only [firstValue, List.findSome?_append]

theorem firstValue_isSome_iff (ms : List GoMap) (x : GoString) :
    (∃ v, firstValue ms x = some v) ↔ ∃ m ∈ ms, x ∈ GoMap.keys m := by
  induction ms with
  | nil => simp [firstValue]
  | cons m rest ih =>
    rw [firstValue_cons]
    simp only [List.mem_cons, exists_eq_or_imp, ← ih, GoMap.mem_keys_iff m]
    cases GoMap.find m x with
    | some u => simp
    | none => simp

theorem firstValue_earliest (ms : List GoMap) (x : GoString) :
    ∀ (i : Nat) (m : GoMap), ms[i]? = some m → x ∈ GoMap.keys m →
      (∀ (j : Nat) (m2 : GoMap), j < i → ms[j]? = some m2 → x ∉ GoMap.keys m2) →
      firstValue ms x = GoMap.find m x := by
  induction ms with
  | nil =>
    intro i m hi
    simp at hi
  | cons m0 rest ih =>
    intro i m hi hx hbefore
    rw [firstValue_cons]
    cases i with
    | zero =>
      simp only [List.getElem?_cons_zero, Option.some.injEq] at hi
      subst hi
      obtain ⟨v, hv⟩ := (GoMap.mem_keys_iff _ x).1 hx
      rw [hv]
      rfl
    | succ i =>
      simp only [List.getElem?_cons_succ] at hi
      have h0 : GoMap.find m0 x = none := by
        cases hf : GoMap.find m0 x with
        | none => rfl
        | some v =>
          exact absurd ((GoMap.mem_keys_iff m0 x).2 ⟨v, hf⟩)
            (hbefore 0 m0 (Nat.succ_pos _) (List.getElem?_cons_zero))
      rw [h0]
      exact ih i m hi hx (fun j m2 hj hm2 =>
        hbefore (j + 1) m2 (Nat.succ_lt_succ hj) (by rw [List.getElem?_cons_succ]; exact hm2))

/-- C3: for every ordered namespace list and every store whose fetches all
return a mapping (`ms` is the list of these mappings, one per namespace and in
list order), `fetchEtcdVariables` returns a mapping whose keys are the keys of
all the per-namespace mappings, and in which the value of each key is its
value in the mapping of the earliest namespace that has the key. This holds
for every order in which `range` visits the mappings. -/
theorem fetchEtcdVariables_first_write_wins (env : Env) (ctx : Context) (w : World)
    (ms : List GoMap) (horder : ∀ i m, (env.rangeOrder i m).Perm m)
    (hms : namespaceMappings env ctx ctx.Namespaces w = some ms) :
    ms.length = ctx.Namespaces.length ∧
    ∃ merged w1, fetchEtcdVariables env ctx w = (Except.ok merged, w1) ∧
      (∀ x, x ∈ GoMap.keys merged ↔ ∃ m ∈ ms, x ∈ GoMap.keys m) ∧
      (∀ (x : GoString) (i : Nat) (m : GoMap), ms[i]? = some m → x ∈ GoMap.keys m →
        (∀ (j : Nat) (m2 : GoMap), j < i → ms[j]? = some m2 → x ∉ GoMap.keys m2) →
        GoMap.find merged x = GoMap.find m x) ∧
      (∀ x, GoMap.find merged x = firstValue ms x) := by
  obtain ⟨hlen, merged, w1, hloop, hfind⟩ :=
    fetchLoop_find env ctx horder ctx.Namespaces [] w ms hms
  have hfind2 : ∀ x, GoMap.find merged x = firstValue ms x := by
    intro x
    rw [hfind x]
    simp [GoMap.find]
  refine ⟨hlen, merged, w1, hloop, fun x => ?_, fun x i m hi hx hb => ?_, hfind2⟩
  · rw [GoMap.mem_keys_iff, ← firstValue_isSome_iff]
    simp only [hfind2]
  · rw [hfind2 x]
    exact firstValue_earliest ms x i m hi hx hb

/-- The namespaces `["/a", "/b"]` both define `x`: the merged value of `x` is
the one of `"/a"`, and `y`, which only `"/b"` defines, is there too. -/
theorem fetchEtcdVariables_first_write_wins_witness :
    ∃ merged w1,
      fetchEtcdVariables (sampleEnv true)
        (sampleContext [lit "/a", lit "/b"] (lit "restart") [] []) World.initial
        = (Except.ok merged, w1) ∧
      GoMap.find merged (lit "x") = some (lit "1") ∧
      GoMap.find merged (lit "y") = some (lit "3") := by
  have hms : namespaceMappings (sampleEnv true)
      (sampleContext [lit "/a", lit "/b"] (lit "restart") [] [])
      (sampleContext [lit "/a", lit "/b"] (lit "restart") [] []).Namespaces World.initial
      = some [[(lit "x", lit "1")], [(lit "x", lit "2"), (lit "y", lit "3")]] := by
    show namespaceMappings _ _ [lit "/a", lit "/b"] _ = _
    rw [namespaceMappings, fetchNs_ok _ _ _ _ _ [⟨lit "/a/x", lit "1"⟩] rfl]
    simp only
    rw [namespaceMappings, fetchNs_ok _ _ _ _ _ [⟨lit "/b/x", lit "2"⟩, ⟨lit "/b/y", lit "3"⟩] rfl]
    simp only [namespaceMappings]
    decide
  obtain ⟨-, merged, w1, hfetch, -, -, hfind⟩ :=
    fetchEtcdVariables_first_write_wins (sampleEnv true)
      (sampleContext [lit "/a", lit "/b"] (lit "restart") [] []) World.initial
      [[(lit "x", lit "1")], [(lit "x", lit "2"), (lit "y", lit "3")]]
      (fun _ m => List.Perm.refl m) hms
  refine ⟨merged, w1, hfetch, ?_, ?_⟩
  · rw [hfind]
    decide
  · rw [hfind]
    decide

/-- C5: when the store answers `maxRetry + 1` `Get` calls in a row for the
namespace `n` with a recognized error (store unreachable or key not found),
`fetchEtcdNamespaceVariables(n, 0, b)` gives up after exactly these
`maxRetry + 1` calls and returns the empty mapping; and when this happens in a
fetch cycle, at the place of `n` in the namespace list, `fetchEtcdVariables`
goes on as if `n` were not in the list: its result is the first-write-wins
merge of the mappings of the namespaces before and after `n`. -/
theorem fetch_degrade (env : Env) (ctx : Context) (n : GoString)
    (horder : ∀ i m, (env.rangeOrder i m).Perm m) :
    (∀ w0 : World,
      (∀ i : Nat, i ≤ ctx.maxRetry.toNat →
        ∃ code, env.store (w0.calls + i) n = GetResult.etcdError code ∧
          (code = env.ErrCodeEtcdNotReachable ∨ code = env.ErrKeyNotFound)) →
      ∃ w2, fetchEtcdNamespaceVariables env ctx n 0 w0 = (Except.ok [], w2) ∧
        w2.calls = w0.calls + (ctx.maxRetry.toNat + 1)) ∧
    (∀ (pre post : List GoString) (w w1 : World) (r1 : GoMap),
      ctx.Namespaces = pre ++ n :: post →
      fetchLoop env ctx pre [] w = (Except.ok r1, w1) →
      (∀ i : Nat, i ≤ ctx.maxRetry.toNat →
        ∃ code, env.store (w1.calls + i) n = GetResult.etcdError code ∧
          (code = env.ErrCodeEtcdNotReachable ∨ code = env.ErrKeyNotFound)) →
      ∃ w2, fetchEtcdNamespaceVariables env ctx n 0 (w1.emit Action.backoffReset)
          = (Except.ok [], w2) ∧
        w2.calls = w1.calls + (ctx.maxRetry.toNat + 1) ∧
        fetchEtcdVariables env ctx w = fetchLoop env ctx post r1 w2 ∧
        ∀ msPre msPost, namespaceMappings env ctx pre w = some msPre →
          namespaceMappings env ctx post w2 = some msPost →
          ∃ merged w3, fetchEtcdVariables env ctx w = (Except.ok merged, w3) ∧
            ∀ x, GoMap.find merged x = firstValue (msPre ++ msPost) x) := by
  have give_up : ∀ w0 : World,
      (∀ i : Nat, i ≤ ctx.maxRetry.toNat →
        ∃ code, env.store (w0.calls + i) n = GetResult.etcdError code ∧
          (code = env.ErrCodeEtcdNotReachable ∨ code = env.ErrKeyNotFound)) →
      ∃ w2, fetchEtcdNamespaceVariables env ctx n 0 w0 = (Except.ok [], w2) ∧
        w2.calls = w0.calls + (ctx.maxRetry.toNat + 1) := by
    intro w0 herr
    exact fetchNs_give_up env ctx n ctx.maxRetry.toNat 0 w0 (by simp)
      (fun i hi => (herr i hi).imp (fun _ h => h.1))
  refine ⟨give_up, ?_⟩
  intro pre post w w1 r1 hns hpre herr
  obtain ⟨w2, hw2, hc2⟩ := give_up (w1.emit Action.backoffReset) herr
  have hempty : env.rangeOrder w2.calls [] = [] := (horder w2.calls []).eq_nil
  have hcycle : fetchEtcdVariables env ctx w = fetchLoop env ctx post r1 w2 := by
    unfold fetchEtcdVariables
    rw [hns, fetchLoop_append env ctx pre (n :: post) [] r1 w w1 hpre,
      fetchLoop_cons_ok env ctx n post r1 w1 w2 [] hw2, hempty]
    rfl
  refine ⟨w2, hw2, hc2, hcycle, ?_⟩
  intro msPre msPost hmsPre hmsPost
  obtain ⟨-, m1, w1b, hloop1, hfind1⟩ := fetchLoop_find env ctx horder pre [] w msPre hmsPre
  rw [hpre] at hloop1
  obtain ⟨-, merged, w3, hloop2, hfind2⟩ :=
    fetchLoop_find env ctx horder post r1 w2 msPost hmsPost
  refine ⟨merged, w3, by rw [hcycle, hloop2], fun x => ?_⟩
  have hr1 : r1 = m1 := by
    have := congrArg (fun p => p.1) hloop1
    simpa using this
  rw [hfind2 x, firstValue_append, hr1, hfind1 x]
  simp [GoMap.find]

/-- The namespaces `["/a", "/down", "/b"]` with `maxRetry = 3`: the store
answers the 4 calls for `"/down"` with "not reachable"; the fetcher gives up
after these 4 calls with the empty mapping, and the cycle returns the merge of
`"/a"` and `"/b"` after 6 calls. -/
theorem fetch_degrade_witness :
    (∃ w2, fetchEtcdNamespaceVariables (sampleEnv true)
        (sampleContext [lit "/a", lit "/down", lit "/b"] (lit "restart") [] [])
        (lit "/down") 0 World.initial = (Except.ok [], w2) ∧ w2.calls = 4) ∧
    (∃ merged w3, fetchEtcdVariables (sampleEnv true)
        (sampleContext [lit "/a", lit "/down", lit "/b"] (lit "restart") [] [])
        World.initial = (Except.ok merged, w3) ∧
      GoMap.find merged (lit "x") = some (lit "1") ∧
      GoMap.find merged (lit "y") = some (lit "3") ∧
      GoMap.keys merged = [lit "x", lit "y"] ∧
      w3.calls = 6) := by
  have herr : ∀ (c i : Nat), i ≤ (3 : Int).toNat →
      ∃ code, (sampleEnv true).store (c + i) (lit "/down") = GetResult.etcdError code ∧
        (code = (sampleEnv true).ErrCodeEtcdNotReachable ∨
          code = (sampleEnv true).ErrKeyNotFound) :=
    fun _ _ _ => ⟨501, rfl, Or.inl rfl⟩
  have hthm := fetch_degrade (sampleEnv true)
    (sampleContext [lit "/a", lit "/down", lit "/b"] (lit "restart") [] []) (lit "/down")
    (fun _ m => List.Perm.refl m)
  constructor
  · obtain ⟨w2, h, hc⟩ := hthm.1 World.initial (herr 0)
    exact ⟨w2, h, hc⟩
  · have hpre : fetchLoop (sampleEnv true)
        (sampleContext [lit "/a", lit "/down", lit "/b"] (lit "restart") [] [])
        [lit "/a"] [] World.initial
        = (Except.ok [(lit "x", lit "1")],
            { calls := 1,
              trace := [Action.backoffReset,
                Action.get (lit "/a") (GetResult.ok [⟨lit "/a/x", lit "1"⟩])] }) := by
      rw [fetchLoop_cons_ok _ _ _ _ _ _ _ _
        (fetchNs_ok _ _ _ _ _ [⟨lit "/a/x", lit "1"⟩] rfl)]
      rw [fetchLoop_nil]
      rfl
    obtain ⟨w2, -, hc2, hcycle, -⟩ := hthm.2 [lit "/a"] [lit "/b"] World.initial _ _ rfl hpre
      (herr 1)
    have hpost : fetchLoop (sampleEnv true)
        (sampleContext [lit "/a", lit "/down", lit "/b"] (lit "restart") [] [])
        [lit "/b"] [(lit "x", lit "1")] w2
        = (Except.ok [(lit "x", lit "1"), (lit "y", lit "3")],
            { calls := w2.calls + 1,
              trace := w2.trace ++ [Action.backoffReset] ++
                [Action.get (lit "/b")
                  (GetResult.ok [⟨lit "/b/x", lit "2"⟩, ⟨lit "/b/y", lit "3"⟩])] }) := by
      rw [fetchLoop_cons_ok _ _ _ _ _ _ _ _
        (fetchNs_ok _ _ _ _ _ [⟨lit "/b/x", lit "2"⟩, ⟨lit "/b/y", lit "3"⟩] rfl)]
      rw [fetchLoop_nil]
      have hm : mergeInto [(lit "x", lit "1")]
          ((sampleEnv true).rangeOrder (w2.calls + 1)
            (nodesLoop (sampleContext [lit "/a", lit "/down", lit "/b"] (lit "restart") [] [])
              [⟨lit "/b/x", lit "2"⟩, ⟨lit "/b/y", lit "3"⟩] []))
          = [(lit "x", lit "1"), (lit "y", lit "3")] := rfl
      simp only [World.emit_calls, World.emit_trace]
      rw [hm]
    refine ⟨_, _, hcycle.trans hpost, by decide, by decide, by decide, ?_⟩
    show w2.calls + 1 = 6
    rw [hc2]
    rfl

/-- C6: a fetch cycle aborts exactly when one of the `Get` calls it issues is
answered with an error that is not of the recognized type. On such an error
`fetchEtcdNamespaceVariables` aborts at once, at every retry count, after this
one call and without a mapping; on a recognized error, whatever its code, it
retries (below `maxRetry`) or returns the empty mapping; and a cycle without
an unrecognized error returns a mapping. -/
theorem fetch_abort_iff (env : Env) (ctx : Context) (w : World) :
    (∀ (ns : GoString) (r : Int) (w0 : World) (msg : String),
      env.store w0.calls ns = GetResult.otherError msg →
      (fetchEtcdNamespaceVariables env ctx ns r w0).1 = Except.error msg ∧
      (fetchEtcdNamespaceVariables env ctx ns r w0).2.calls = w0.calls + 1) ∧
    (∀ (ns : GoString) (r : Int) (w0 : World) (code : Int),
      env.store w0.calls ns = GetResult.etcdError code →
      fetchEtcdNamespaceVariables env ctx ns r w0
        = if r < ctx.maxRetry then
            fetchEtcdNamespaceVariables env ctx ns (r + 1) (retryWorld env ns code w0)
          else (Except.ok [], giveUpWorld env ns code w0)) ∧
    ((∃ msg, (fetchEtcdVariables env ctx w).1 = Except.error msg) ↔
      ∃ a ∈ emitted w (fetchEtcdVariables env ctx w).2, Action.isUnrecognized a = true) ∧
    ((∀ a ∈ emitted w (fetchEtcdVariables env ctx w).2, Action.isUnrecognized a = false) →
      ∃ m, (fetchEtcdVariables env ctx w).1 = Except.ok m) := by
  obtain ⟨acts, htrace, hiff⟩ := fetchLoop_sound env ctx ctx.Namespaces [] w
  have hem : emitted w (fetchEtcdVariables env ctx w).2 = acts := by
    unfold emitted fetchEtcdVariables
    rw [htrace]
    exact List.drop_left _ _
  refine ⟨?_, fun ns r w0 code h => fetchNs_etcd env ctx ns r w0 code h, ?_, ?_⟩
  · intro ns r w0 msg h
    rw [fetchNs_other env ctx ns r w0 msg h]
    exact ⟨rfl, rfl⟩
  · rw [hem]
    exact hiff
  · rw [hem]
    intro hno
    cases hres : (fetchEtcdVariables env ctx w).1 with
    | ok m => exact ⟨m, rfl⟩
    | error msg =>
      obtain ⟨a, ha, hu⟩ := hiff.1 ⟨msg, hres⟩
      rw [hno a ha] at hu
      exact Bool.noConfusion hu

/-- The namespace `"/broken"`, whose answer is an error of an unrecognized
type: the fetcher panics with its message after one call, at retry count 2 as
at any other. -/
theorem fetch_abort_iff_witness :
    (fetchEtcdNamespaceVariables (sampleEnv true)
      (sampleContext [lit "/a", lit "/broken"] (lit "restart") [] [])
      (lit "/broken") 2 World.initial).1 = Except.error "unexpected end of JSON input" ∧
    (fetchEtcdNamespaceVariables (sampleEnv true)
      (sampleContext [lit "/a", lit "/broken"] (lit "restart") [] [])
      (lit "/broken") 2 World.initial).2.calls = 1 :=
  (fetch_abort_iff (sampleEnv true)
    (sampleContext [lit "/a", lit "/broken"] (lit "restart") [] []) World.initial).1
    (lit "/broken") 2 World.initial "unexpected end of JSON input" rfl

/-! ## The effects of a fetch cycle -/

theorem FetchOnly.refl (w : World) : FetchOnly w w :=
  ⟨[], by simp, by simp⟩

theorem FetchOnly.trans {w w1 w2 : World} (h1 : FetchOnly w w1) (h2 : FetchOnly w1 w2) :
    FetchOnly w w2 := by
  obtain ⟨a1, ht1, hf1⟩ := h1
  obtain ⟨a2, ht2, hf2⟩ := h2
  refine ⟨a1 ++ a2, by rw [ht2, ht1, List.append_assoc], ?_⟩
  intro a ha
  rcases List.mem_append.1 ha with h | h
  · exact hf1 a h
  · exact hf2 a h

theorem FetchOnly.emit (w : World) (a : Action) (ha : Action.isFetchEffect a = true) :
    FetchOnly w (w.emit a) :=
  ⟨[a], rfl, by simpa using ha⟩

theorem FetchOnly.get (w : World) (ns : GoString) (resp : GetResult) :
    FetchOnly w { calls := w.calls + 1, trace := w.trace ++ [Action.get ns resp] } :=
  ⟨[Action.get ns resp], rfl, by simp [Action.isFetchEffect]⟩

theorem FetchOnly.logErrorCode (env : Env) (errorCode : Int) (w : World) :
    FetchOnly w (logErrorCode env errorCode w) := by
  unfold Etcdenv.logErrorCode
  split
  · exact FetchOnly.emit _ _ rfl
  · split
    · exact FetchOnly.emit _ _ rfl
    · exact FetchOnly.refl _

theorem FetchOnly.giveUpWorld (env : Env) (ns : GoString) (errorCode : Int) (w : World) :
    FetchOnly w (giveUpWorld env ns errorCode w) :=
  ((FetchOnly.get w ns _).trans (FetchOnly.emit _ (Action.log LogLine.errorText) rfl)).trans
    (FetchOnly.logErrorCode _ _ _)

theorem FetchOnly.retryWorld (env : Env) (ns : GoString) (errorCode : Int) (w : World) :
    FetchOnly w (retryWorld env ns errorCode w) :=
  ((FetchOnly.giveUpWorld env ns errorCode w).trans
    (FetchOnly.emit _ (Action.log LogLine.retryFetching) rfl)).trans
    (FetchOnly.emit _ Action.backoffSleep rfl)

theorem fetchNs_fetchOnly (env : Env) (ctx : Context) (ns : GoString) :
    ∀ (k : Nat) (r : Int) (w : World), (ctx.maxRetry - r).toNat ≤ k →
      FetchOnly w (fetchEtcdNamespaceVariables env ctx ns r w).2 := by
  intro k
  induction k with
  | zero =>
    intro r w hk
    cases hs : env.store w.calls ns with
    | ok nodes =>
      rw [fetchNs_ok env ctx ns r w nodes hs]
      exact FetchOnly.get w ns _
    | otherError msg =>
      rw [fetchNs_other env ctx ns r w msg hs]
      exact (FetchOnly.get w ns _).trans (FetchOnly.emit _ (Action.log LogLine.errorText) rfl)
    | etcdError code =>
      have hnot : ¬ r < ctx.maxRetry := by omega
      rw [fetchNs_etcd env ctx ns r w code hs, if_neg hnot]
      exact FetchOnly.giveUpWorld env ns code w
  | succ k ih =>
    intro r w hk
    cases hs : env.store w.calls ns with
    | ok nodes =>
      rw [fetchNs_ok env ctx ns r w nodes hs]
      exact FetchOnly.get w ns _
    | otherError msg =>
      rw [fetchNs_other env ctx ns r w msg hs]
      exact (FetchOnly.get w ns _).trans (FetchOnly.emit _ (Action.log LogLine.errorText) rfl)
    | etcdError code =>
      rw [fetchNs_etcd env ctx ns r w code hs]
      by_cases hlt : r < ctx.maxRetry
      · rw [if_pos hlt]
        exact (FetchOnly.retryWorld env ns code w).trans (ih (r + 1) _ (by omega))
      · rw [if_neg hlt]
        exact FetchOnly.giveUpWorld env ns code w

theorem fetchLoop_fetchOnly (env : Env) (ctx : Context) (nss : List GoString) :
    ∀ (result : GoMap) (w : World), FetchOnly w (fetchLoop env ctx nss result w).2 := by
  induction nss with
  | nil =>
    intro result w
    exact FetchOnly.refl w
  | cons ns rest ih =>
    intro result w
    have h1 := fetchNs_fetchOnly env ctx ns _ 0 (w.emit Action.backoffReset) (Nat.le_refl _)
    cases hres : fetchEtcdNamespaceVariables env ctx ns 0 (w.emit Action.backoffReset) with
    | mk out w0 =>
      rw [hres] at h1
      cases out with
      | error msg =>
        rw [fetchLoop_cons_error env ctx ns rest result w w0 msg hres]
        exact (FetchOnly.emit w Action.backoffReset rfl).trans h1
      | ok m =>
        rw [fetchLoop_cons_ok env ctx ns rest result w w0 m hres]
        exact ((FetchOnly.emit w Action.backoffReset rfl).trans h1).trans (ih _ w0)

/-- A fetch cycle calls the store, backs off and logs, and does nothing else. -/
theorem fetchEtcdVariables_fetchOnly (env : Env) (ctx : Context) (w : World) :
    FetchOnly w (fetchEtcdVariables env ctx w).2 :=
  fetchLoop_fetchOnly env ctx ctx.Namespaces [] w

theorem emitted_of_trace (w w1 : World) (acts : List Action)
    (h : w1.trace = w.trace ++ acts) : emitted w w1 = acts := by
  unfold emitted
  rw [h]
  exact List.drop_left _ _

theorem supervision_of_fetchOnly (acts : List Action)
    (h : ∀ a ∈ acts, Action.isFetchEffect a = true) : supervision acts = [] := by
  unfold supervision
  rw [List.filter_eq_nil_iff]
  intro a ha
  simp [h a ha]

theorem supervision_append (a b : List Action) :
    supervision (a ++ b) = supervision a ++ supervision b := by
  simp [supervision]

/-! ## The central loop -/

theorem refreshAndRestart_ok (env : Env) (ctx : Context) (w w1 : World) (m : GoMap)
    (h : fetchEtcdVariables env ctx w = (Except.ok m, w1)) :
    refreshAndRestart env ctx w
      = (Outcome.running { ctx with CurrentEnv := m }, w1.emit (Action.restart m)) := by
  simp only [refreshAndRestart, h]

theorem refreshAndRestart_error (env : Env) (ctx : Context) (w w1 : World) (msg : String)
    (h : fetchEtcdVariables env ctx w = (Except.error msg, w1)) :
    refreshAndRestart env ctx w = (Outcome.panicked msg, w1) := by
  simp only [refreshAndRestart, h]

/-- The reaction to a change event when the fetch cycle returns the mapping
`m`: the snapshot becomes `m` and the only call to the supervisor is
`Restart(m)`. -/
theorem loopStep_change_ok (env : Env) (ctx : Context) (w w1 : World) (m : GoMap)
    (h : fetchEtcdVariables env ctx (w.emit (Action.log LogLine.processRestarted))
      = (Except.ok m, w1)) :
    loopStep env ctx Event.change w
        = (Outcome.running { ctx with CurrentEnv := m }, w1.emit (Action.restart m)) ∧
      supervision (emitted w (w1.emit (Action.restart m))) = [Action.restart m] := by
  refine ⟨refreshAndRestart_ok env ctx _ w1 m h, ?_⟩
  obtain ⟨acts, ht, hf⟩ :=
    fetchEtcdVariables_fetchOnly env ctx (w.emit (Action.log LogLine.processRestarted))
  rw [h] at ht
  have htrace : (w1.emit (Action.restart m)).trace
      = w.trace ++ ([Action.log LogLine.processRestarted] ++ acts ++ [Action.restart m]) := by
    rw [World.emit_trace, show w1.trace = _ from ht, World.emit_trace]
    simp
  rw [emitted_of_trace w _ _ htrace, supervision_append, supervision_append,
    supervision_of_fetchOnly acts hf]
  rfl

/-- The reaction to a process exit under `"restart"` when the fetch cycle
returns the mapping `m`: the snapshot becomes `m`, and the calls to the
supervisor are `Restart(m)` and then `go WatchProcess`. -/
theorem loopStep_restart_ok (env : Env) (ctx : Context) (s : Int) (w w1 : World) (m : GoMap)
    (hmode : ctx.ShutdownBehavour = lit "restart")
    (h : fetchEtcdVariables env ctx
        ((w.emit (Action.log (LogLine.processExited s))).emit
          (Action.log LogLine.processRestarted))
      = (Except.ok m, w1)) :
    loopStep env ctx (Event.processExit s) w
        = (Outcome.running { ctx with CurrentEnv := m },
            (w1.emit (Action.restart m)).emit Action.watchProcess) ∧
      supervision (emitted w ((w1.emit (Action.restart m)).emit Action.watchProcess))
        = [Action.restart m, Action.watchProcess] := by
  have hne : ¬ ctx.ShutdownBehavour = lit "exit" := by
    rw [hmode]
    decide
  constructor
  · simp only [loopStep, if_neg hne, if_pos hmode, refreshAndRestart_ok env ctx _ w1 m h]
  · obtain ⟨acts, ht, hf⟩ := fetchEtcdVariables_fetchOnly env ctx
      ((w.emit (Action.log (LogLine.processExited s))).emit
        (Action.log LogLine.processRestarted))
    rw [h] at ht
    have htrace : ((w1.emit (Action.restart m)).emit Action.watchProcess).trace
        = w.trace ++ ([Action.log (LogLine.processExited s),
            Action.log LogLine.processRestarted] ++ acts
            ++ [Action.restart m, Action.watchProcess]) := by
      rw [World.emit_trace, World.emit_trace, show w1.trace = _ from ht, World.emit_trace,
        World.emit_trace]
      simp
    rw [emitted_of_trace w _ _ htrace, supervision_append, supervision_append,
      supervision_of_fetchOnly acts hf]
    rfl

/-- C8, as it fails: under `"exit"`, a process exit with status 42 ends the
engine with status 42 when the send on `ExitChan` is received, and the
reaction has not called `Stop`; when nothing receives the send, the loop stays
blocked in it and the engine does not end. -/
theorem exit_mode_stop_counterexample :
    loopStep (sampleEnv true) (sampleContext [lit "/a"] (lit "exit") [] [])
        (Event.processExit 42) World.initial
      = (Outcome.exited 42,
          { calls := 0,
            trace := [Action.log (LogLine.processExited 42), Action.sendExitChan,
              Action.osExit 42] }) ∧
    List.count Action.stop
      [Action.log (LogLine.processExited 42), Action.sendExitChan, Action.osExit 42] = 0 ∧
    loopStep (sampleEnv false) (sampleContext [lit "/a"] (lit "exit") [] [])
        (Event.processExit 42) World.initial
      = (Outcome.blocked,
          { calls := 0, trace := [Action.log (LogLine.processExited 42)] }) := by
  decide

/-- C8, amended: under `"exit"`, for every exit status `s`, the reaction of
the central loop to a process exit with status `s` is: the log line, then the
send on `ExitChan`; once another goroutine has received it, `os.Exit(s)`, so
that the engine ends with the status of the child unchanged; as long as none
has, the loop is blocked in the send. The reaction calls neither `Stop` nor
`Start` nor `Restart`. -/
theorem exit_mode_passthrough (env : Env) (ctx : Context) (s : Int) (w : World)
    (hmode : ctx.ShutdownBehavour = lit "exit") :
    (env.exitChanReceiver = true →
      loopStep env ctx (Event.processExit s) w
        = (Outcome.exited s,
            { calls := w.calls,
              trace := w.trace ++ [Action.log (LogLine.processExited s), Action.sendExitChan,
                Action.osExit s] })) ∧
    (env.exitChanReceiver = false →
      loopStep env ctx (Event.processExit s) w
        = (Outcome.blocked, w.emit (Action.log (LogLine.processExited s)))) ∧
    (∀ a ∈ emitted w (loopStep env ctx (Event.processExit s) w).2,
      a = Action.log (LogLine.processExited s) ∨ a = Action.sendExitChan ∨
        a = Action.osExit s) := by
  cases hr : env.exitChanReceiver with
  | true =>
    have hstep : loopStep env ctx (Event.processExit s) w
        = (Outcome.exited s,
            { calls := w.calls,
              trace := w.trace ++ [Action.log (LogLine.processExited s), Action.sendExitChan,
                Action.osExit s] }) := by
      simp [loopStep, hmode, hr, World.emit]
    refine ⟨fun _ => hstep, fun h => Bool.noConfusion h, ?_⟩
    rw [hstep, emitted_of_trace w _ _ rfl]
    intro a ha
    simpa using ha
  | false =>
    have hstep : loopStep env ctx (Event.processExit s) w
        = (Outcome.blocked, w.emit (Action.log (LogLine.processExited s))) := by
      simp [loopStep, hmode, hr]
    refine ⟨fun h => Bool.noConfusion h, fun _ => hstep, ?_⟩
    rw [hstep, emitted_of_trace w _ _ rfl]
    intro a ha
    rw [List.mem_singleton] at ha
    exact Or.inl ha

/-- A child that exits with status 42 under `"exit"`, with a receiver on
`ExitChan`: the engine ends with status 42. -/
theorem exit_mode_passthrough_witness :
    loopStep (sampleEnv true) (sampleContext [lit "/a"] (lit "exit") [] [])
        (Event.processExit 42) World.initial
      = (Outcome.exited 42,
          { calls := World.initial.calls,
            trace := World.initial.trace ++ [Action.log (LogLine.processExited 42),
              Action.sendExitChan, Action.osExit 42] }) :=
  (exit_mode_passthrough (sampleEnv true) (sampleContext [lit "/a"] (lit "exit") [] []) 42
    World.initial rfl).1 rfl

theorem sample_fetch_ab (mode : GoString) (env0 : GoMap) (w : World) :
    fetchEtcdVariables (sampleEnv true) (sampleContext [lit "/a", lit "/b"] mode [] env0) w
      = (Except.ok [(lit "x", lit "1"), (lit "y", lit "3")],
          { calls := w.calls + 2,
            trace := w.trace ++ [Action.backoffReset,
              Action.get (lit "/a") (GetResult.ok [⟨lit "/a/x", lit "1"⟩]),
              Action.backoffReset,
              Action.get (lit "/b")
                (GetResult.ok [⟨lit "/b/x", lit "2"⟩, ⟨lit "/b/y", lit "3"⟩])] }) := by
  unfold fetchEtcdVariables
  show fetchLoop _ _ [lit "/a", lit "/b"] [] w = _
  rw [fetchLoop_cons_ok _ _ _ _ _ _ _ _
    (fetchNs_ok _ _ _ _ _ [⟨lit "/a/x", lit "1"⟩] rfl)]
  rw [fetchLoop_cons_ok _ _ _ _ _ _ _ _
    (fetchNs_ok _ _ _ _ _ [⟨lit "/b/x", lit "2"⟩, ⟨lit "/b/y", lit "3"⟩] rfl)]
  rw [fetchLoop_nil]
  simp only [World.emit_calls, World.emit_trace, List.append_assoc, List.singleton_append]
  rfl

/-- C9, on the code: the reaction of the central loop to a change event, for
the namespaces `["/a", "/b"]`, is one fetch cycle, the new snapshot and one
`Restart` with it; no `WatchProcess` follows, so the exit listener is not
armed again. -/
theorem change_event_does_not_rearm :
    loopStep (sampleEnv true) (sampleContext [lit "/a", lit "/b"] (lit "keepalive") [] [])
        Event.change World.initial
      = (Outcome.running (sampleContext [lit "/a", lit "/b"] (lit "keepalive") []
            [(lit "x", lit "1"), (lit "y", lit "3")]),
          { calls := 2,
            trace := [Action.log LogLine.processRestarted,
              Action.backoffReset,
              Action.get (lit "/a") (GetResult.ok [⟨lit "/a/x", lit "1"⟩]),
              Action.backoffReset,
              Action.get (lit "/b")
                (GetResult.ok [⟨lit "/b/x", lit "2"⟩, ⟨lit "/b/y", lit "3"⟩]),
              Action.restart [(lit "x", lit "1"), (lit "y", lit "3")]] }) ∧
    Action.watchProcess ∉
      [Action.log LogLine.processRestarted,
        Action.backoffReset,
        Action.get (lit "/a") (GetResult.ok [⟨lit "/a/x", lit "1"⟩]),
        Action.backoffReset,
        Action.get (lit "/b")
          (GetResult.ok [⟨lit "/b/x", lit "2"⟩, ⟨lit "/b/y", lit "3"⟩]),
        Action.restart [(lit "x", lit "1"), (lit "y", lit "3")]] := by
  refine ⟨?_, by decide⟩
  rw [(loopStep_change_ok _ _ _ _ _ (sample_fetch_ab _ _ _)).1]
  rfl

/-- C10, as it fails: under `"restart"`, with a namespace whose `Get` is
answered with an unrecognized error, the reaction to a process exit with
status 0 is a panic: the engine ends and no `Restart` is issued. -/
theorem restart_mode_panic_counterexample :
    loopStep (sampleEnv true) (sampleContext [lit "/broken"] (lit "restart") [] [])
        (Event.processExit 0) World.initial
      = (Outcome.panicked "unexpected end of JSON input",
          { calls := 1,
            trace := [Action.log (LogLine.processExited 0),
              Action.log LogLine.processRestarted,
              Action.backoffReset,
              Action.get (lit "/broken")
                (GetResult.otherError "unexpected end of JSON input"),
              Action.log LogLine.errorText] }) ∧
    supervision
      [Action.log (LogLine.processExited 0),
        Action.log LogLine.processRestarted,
        Action.backoffReset,
        Action.get (lit "/broken") (GetResult.otherError "unexpected end of JSON input"),
        Action.log LogLine.errorText] = [] := by
  refine ⟨?_, by decide⟩
  have hfetch : fetchEtcdVariables (sampleEnv true)
      (sampleContext [lit "/broken"] (lit "restart") [] [])
      ((World.initial.emit (Action.log (LogLine.processExited 0))).emit
        (Action.log LogLine.processRestarted))
      = (Except.error "unexpected end of JSON input",
          { calls := 1,
            trace := [Action.log (LogLine.processExited 0),
              Action.log LogLine.processRestarted,
              Action.backoffReset,
              Action.get (lit "/broken")
                (GetResult.otherError "unexpected end of JSON input"),
              Action.log LogLine.errorText] }) := by
    unfold fetchEtcdVariables
    show fetchLoop _ _ [lit "/broken"] [] _ = _
    rw [fetchLoop_cons_error _ _ _ _ _ _ _ _
      (fetchNs_other _ _ _ _ _ "unexpected end of JSON input" rfl)]
    rfl
  have hne : ¬ (sampleContext [lit "/broken"] (lit "restart") [] []).ShutdownBehavour
      = lit "exit" := by decide
  have hmode : (sampleContext [lit "/broken"] (lit "restart") [] []).ShutdownBehavour
      = lit "restart" := rfl
  simp only [loopStep, if_neg hne, if_pos hmode, refreshAndRestart_error _ _ _ _ _ hfetch]

/-- C10, amended: for every exit status `s`, the reaction of the central loop
to a process exit is, under `"restart"` and when the fetch cycle returns a
mapping `m` (no `Get` call of it is answered with an unrecognized error): this
one fetch cycle, the snapshot replaced by `m`, one `Restart(m)`, then the exit
listener armed again, and no `Stop`, no `Start`, no send on `ExitChan` and no
exit; under `"keepalive"`: the log line only, with the snapshot unchanged. -/
theorem processExit_restart_keepalive (env : Env) (ctx : Context) (s : Int) (w : World) :
    (ctx.ShutdownBehavour = lit "restart" →
      ∀ (m : GoMap) (w1 : World),
        fetchEtcdVariables env ctx
            ((w.emit (Action.log (LogLine.processExited s))).emit
              (Action.log LogLine.processRestarted))
          = (Except.ok m, w1) →
        loopStep env ctx (Event.processExit s) w
          = (Outcome.running { ctx with CurrentEnv := m },
              (w1.emit (Action.restart m)).emit Action.watchProcess) ∧
        supervision (emitted w ((w1.emit (Action.restart m)).emit Action.watchProcess))
          = [Action.restart m, Action.watchProcess]) ∧
    (ctx.ShutdownBehavour = lit "keepalive" →
      loopStep env ctx (Event.processExit s) w
        = (Outcome.running ctx, w.emit (Action.log (LogLine.processExited s)))) := by
  constructor
  · intro hmode m w1 h
    exact loopStep_restart_ok env ctx s w w1 m hmode h
  · intro hmode
    have hne : ¬ ctx.ShutdownBehavour = lit "exit" := by
      rw [hmode]
      decide
    have hnr : ¬ ctx.ShutdownBehavour = lit "restart" := by
      rw [hmode]
      decide
    simp only [loopStep, if_neg hne, if_neg hnr]

/-- A child that exits with status 0 under `"restart"`, and one that exits
with status 1 under `"keepalive"`, for the namespaces `["/a", "/b"]`. -/
theorem processExit_restart_keepalive_witness :
    (loopStep (sampleEnv true) (sampleContext [lit "/a", lit "/b"] (lit "restart") [] [])
        (Event.processExit 0) World.initial).1
      = Outcome.running (sampleContext [lit "/a", lit "/b"] (lit "restart") []
          [(lit "x", lit "1"), (lit "y", lit "3")]) ∧
    supervision (emitted World.initial
        (loopStep (sampleEnv true) (sampleContext [lit "/a", lit "/b"] (lit "restart") [] [])
          (Event.processExit 0) World.initial).2)
      = [Action.restart [(lit "x", lit "1"), (lit "y", lit "3")], Action.watchProcess] ∧
    loopStep (sampleEnv true) (sampleContext [lit "/a", lit "/b"] (lit "keepalive") [] [])
        (Event.processExit 1) World.initial
      = (Outcome.running (sampleContext [lit "/a", lit "/b"] (lit "keepalive") [] []),
          { calls := 0, trace := [Action.log (LogLine.processExited 1)] }) := by
  obtain ⟨hstep, hsup⟩ :=
    (processExit_restart_keepalive (sampleEnv true)
      (sampleContext [lit "/a", lit "/b"] (lit "restart") [] []) 0 World.initial).1 rfl _ _
      (sample_fetch_ab _ _ _)
  refine ⟨?_, ?_, ?_⟩
  · rw [hstep]
    rfl
  · rw [hstep]
    exact hsup
  · exact (processExit_restart_keepalive (sampleEnv true)
      (sampleContext [lit "/a", lit "/b"] (lit "keepalive") [] []) 1 World.initial).2 rfl

end Etcdenv
